import Mathlib

/-!
# Verification of the AMPL-2020 compiler front end

A shallow embedding, in Lean 4, of the scanner (`src/ampl/src/scanner.c`),
symbol table (`symboltable.c`), hash-table lookup (`src/ampl/src/hashtable.c`)
and selected type/argument-checking fragments of the parser
(`src/ampl/src/amplc.c`), together with proofs about the embedded code.

Conventions used throughout:
* C machine integers that can only hold small non-negative values are `Nat`;
  values that the C code can drive below zero (source columns, which the
  parser and scanner decrement freely) are `Int`; the one place where C
  unsigned wraparound is reachable in principle is written out with an
  explicit `% 4294967296`.
* `getc` and the global scanner variables `ch`, `position`, `column_number`
  are threaded as an explicit `ScanState`; `ch == EOF` is `none`.
* fatal errors (`leprintf`, `abort_compile`) terminate compilation, so every
  function that can raise one returns an `Except` whose error carries the
  message and the global `position` at the moment the error is raised
  (the error sink itself lives in `error.c`, which only prints the current
  position and exits).
-/

namespace Ampl

/-! ## Characters

Character constants are spelled with `Char.ofNat` where a literal would be
awkward: 123/125 are the braces, 34 the double quote, 92 the backslash,
10/9 newline and tab. -/

def braceOpen : Char := Char.ofNat 123

def braceClose : Char := Char.ofNat 125

def quoteChar : Char := Char.ofNat 34

def backslashChar : Char := Char.ofNat 92

def newlineChar : Char := Char.ofNat 10

def tabChar : Char := Char.ofNat 9

/-- C `isspace` in the POSIX locale: space, tab, newline, vertical tab,
form feed, carriage return. -/
def isspaceC (c : Char) : Bool :=
  c = ' ' || c = tabChar || c = newlineChar ||
  c = Char.ofNat 11 || c = Char.ofNat 12 || c = Char.ofNat 13

/-- C `isalpha` in the POSIX locale. -/
def isalphaC (c : Char) : Bool :=
  (97 ≤ c.toNat && c.toNat ≤ 122) || (65 ≤ c.toNat && c.toNat ≤ 90)

/-- C `isdigit`. -/
def isdigitC (c : Char) : Bool :=
  48 ≤ c.toNat && c.toNat ≤ 57

/-! ## Scanner state

`scanner.c` keeps `src_file` (the unread characters), the lookahead `ch`,
the global `position` (`line`, `col`) shared with the parser, and the
scanner-private `column_number`. -/

structure ScanState where
  input : List Char
  ch : Option Char
  line : Int
  col : Int
  colNum : Int
deriving DecidableEq, Repr

/-- `next_char` of `scanner.c`: remember the previous character, read the
next one (EOF = `none`), and advance the position: a fresh line after a
newline, one more column otherwise. -/
def nextChar (s : ScanState) : ScanState :=
  if s.ch = some newlineChar then
    ⟨s.input.tail, s.input.head?, s.line + 1, 0, 0⟩
  else
    ⟨s.input.tail, s.input.head?, s.line, s.col + 1, s.colNum + 1⟩

/-- `init_scanner`: position (1,0), `column_number` 0, then one `next_char`
to prime the lookahead (the C global `ch` starts as the zero byte). -/
def init_scanner (src : List Char) : ScanState :=
  nextChar ⟨src, some (Char.ofNat 0), 1, 0, 0⟩

/-- The characters the scanner has not yet consumed, lookahead first.
Once `ch` is EOF the stream is empty for good. -/
def lookStream (s : ScanState) : List Char :=
  match s.ch with
  | some c => c :: s.input
  | none => []

/-- Termination measure: unread characters plus the lookahead. -/
def msr (s : ScanState) : Nat :=
  s.input.length + (match s.ch with | some _ => 1 | none => 0)

theorem nextChar_input (s : ScanState) : (nextChar s).input = s.input.tail := by
  unfold nextChar; split <;> rfl

theorem nextChar_ch (s : ScanState) : (nextChar s).ch = s.input.head? := by
  unfold nextChar; split <;> rfl

theorem msr_nextChar_lt (s : ScanState) (c : Char) (h : s.ch = some c) :
    msr (nextChar s) < msr s := by
  unfold msr
  rw [nextChar_input, nextChar_ch, h]
  cases s.input <;> simp

theorem msr_setCol (s : ScanState) (x : Int) :
    msr { s with col := x } = msr s := rfl

theorem lookStream_nextChar (s : ScanState) (c : Char) (t : List Char)
    (h : lookStream s = c :: t) : lookStream (nextChar s) = t := by
  unfold lookStream at h ⊢
  rw [nextChar_ch, nextChar_input]
  cases hch : s.ch with
  | none => rw [hch] at h; simp at h
  | some c0 =>
    rw [hch] at h
    simp at h
    rw [h.2]
    cases t <;> simp

theorem ch_of_lookStream (s : ScanState) (c : Char) (t : List Char)
    (h : lookStream s = c :: t) : s.ch = some c := by
  unfold lookStream at h
  cases hch : s.ch with
  | none => rw [hch] at h; simp at h
  | some c0 => rw [hch] at h; simp at h; rw [h.1]

/-- Consuming a list of characters one `next_char` at a time. -/
theorem lookStream_iterate (l : List Char) :
    ∀ (s : ScanState) (r : List Char), lookStream s = l ++ r →
      lookStream (nextChar^[l.length] s) = r := by
  induction l with
  | nil => intro s r h; simpa using h
  | cons c t ih =>
    intro s r h
    have h1 : lookStream (nextChar s) = t ++ r :=
      lookStream_nextChar s c (t ++ r) (by simpa using h)
    simpa [Function.iterate_succ_apply] using ih (nextChar s) r h1

/-- `while (isspace(ch) || ch == 10) next_char();` at the top of
`get_token`. -/
def skipWs (s : ScanState) : ScanState :=
  match h : s.ch with
  | some c => if isspaceC c || c = newlineChar then skipWs (nextChar s) else s
  | none => s
termination_by msr s
decreasing_by exact msr_nextChar_lt s c h

theorem skipWs_of_not_space (s : ScanState) (c : Char) (h : s.ch = some c)
    (hn : (isspaceC c || c = newlineChar) = false) : skipWs s = s := by
  unfold skipWs
  split
  next c0 hc0 =>
    rw [h] at hc0
    cases hc0
    rw [hn]
    simp
  next => rfl

theorem skipWs_eof (s : ScanState) (h : s.ch = none) : skipWs s = s := by
  unfold skipWs
  split
  next c0 hc0 => rw [h] at hc0; cases hc0
  next => rfl

theorem msr_skipWs_le (s : ScanState) : msr (skipWs s) ≤ msr s := by
  generalize hn : msr s = n
  induction n using Nat.strong_induction_on generalizing s with
  | _ n ih =>
    unfold skipWs
    split
    next c hc =>
      split
      next =>
        have h1 : msr (nextChar s) < msr s := msr_nextChar_lt s c hc
        have h2 := ih (msr (nextChar s)) (by omega) (nextChar s) rfl
        omega
      next => omega
    next => omega

/-! ## Tokens (`token.h`, `token.c`) -/

/-- The token types of `token.h`, in declaration order. -/
inductive TokenType where
  | TOK_EOF | TOK_ID | TOK_NUM | TOK_STR
  | TOK_ARRAY | TOK_AS | TOK_BACK | TOK_BOOLEAN | TOK_CHILLAX | TOK_DO
  | TOK_ELIF | TOK_ELSE | TOK_END | TOK_FALSE | TOK_IF | TOK_INPUT
  | TOK_INTEGER | TOK_LET | TOK_MAIN | TOK_NOT | TOK_OUTPUT | TOK_PROGRAM
  | TOK_RETURNS | TOK_TAKES | TOK_TRUE | TOK_VARS | TOK_WHILE
  | TOK_EQ | TOK_GE | TOK_GT | TOK_LE | TOK_LT | TOK_NE
  | TOK_MINUS | TOK_OR | TOK_PLUS
  | TOK_AND | TOK_DIV | TOK_MOD | TOK_MUL
  | TOK_LPAR | TOK_RPAR | TOK_CAT | TOK_COMMA | TOK_COLON | TOK_SEMICOLON
  | TOK_LBRACK | TOK_RBRACK
deriving DecidableEq, Repr

/-- A token: the type tag plus the union payload of `token.h` (numeric
value, identifier lexeme, string contents), modelled as three fields that
default to zero values. -/
structure Token where
  type : TokenType
  value : Int := 0
  lexeme : String := ""
  str : String := ""
deriving DecidableEq, Repr

/-- A fatal error as raised through `leprintf`: the message and the global
`position` at the moment of the call. -/
structure ScanErr where
  msg : String
  line : Int
  col : Int
deriving DecidableEq, Repr

/-- The reserved-word table of `scanner.c`, sorted by lexeme. -/
def reservedWords : List (String × TokenType) :=
  [("and", .TOK_AND), ("array", .TOK_ARRAY), ("as", .TOK_AS),
   ("back", .TOK_BACK), ("boolean", .TOK_BOOLEAN), ("chillax", .TOK_CHILLAX),
   ("do", .TOK_DO), ("elif", .TOK_ELIF), ("else", .TOK_ELSE),
   ("end", .TOK_END), ("false", .TOK_FALSE), ("if", .TOK_IF),
   ("input", .TOK_INPUT), ("integer", .TOK_INTEGER), ("let", .TOK_LET),
   ("main", .TOK_MAIN), ("mod", .TOK_MOD), ("not", .TOK_NOT),
   ("or", .TOK_OR), ("output", .TOK_OUTPUT), ("program", .TOK_PROGRAM),
   ("returns", .TOK_RETURNS), ("takes", .TOK_TAKES), ("true", .TOK_TRUE),
   ("vars", .TOK_VARS), ("while", .TOK_WHILE)]

/-! ## `process_number`

`token->value = ch - '0'` for the first digit, then a loop that checks
`value > (INT_MAX - (ch - '0')) / 10` before every
`value = value * 10 + (ch - '0')`, and finally rejects a letter or
underscore glued to the digit run. -/

def INT_MAX : Nat := 2147483647

/-- The `while (isdigit(ch))` loop of `process_number`, carrying the
accumulated value. -/
def number_loop (value : Nat) (s : ScanState) : Except ScanErr (Nat × ScanState) :=
  match h : s.ch with
  | some c =>
    if isdigitC c then
      if value > (INT_MAX - (c.toNat - 48)) / 10 then
        .error ⟨"number too large", s.line, s.col⟩
      else
        number_loop (value * 10 + (c.toNat - 48)) (nextChar s)
    else if isalphaC c || c = '_' then
      .error ⟨"illegal character", s.line, s.col⟩
    else
      .ok (value, s)
  | none => .ok (value, s)
termination_by msr s
decreasing_by exact msr_nextChar_lt s c h

/-- `process_number`; the lookahead is a digit whenever `get_token`
dispatches here, so the `none` case is unreachable. -/
def processNumber (s : ScanState) : Except ScanErr (Token × ScanState) :=
  match s.ch with
  | some c =>
    match number_loop (c.toNat - 48) (nextChar s) with
    | .ok (v, s1) => .ok ({ type := .TOK_NUM, value := (v : Int) }, s1)
    | .error e => .error e
  | none => .error ⟨"unreachable code", s.line, s.col⟩

/-! ## `process_string`

The loop runs until the closing quote or EOF; a tab is fatal; a backslash
that is not the first stored character starts an escape whose second
character must be one of `n`, `t`, the quote or another backslash (the
two characters are stored verbatim).  On EOF the position is rewound to
`(start_line, start_col)` — both computed by subtracting one at entry —
and "string not closed" is raised. -/

def string_loop (i : Nat) (buf : List Char) (startLine startCol : Int)
    (s : ScanState) : Except ScanErr (List Char × ScanState) :=
  match h : s.ch with
  | none => .error ⟨"string not closed", startLine, startCol⟩
  | some c =>
    if c = quoteChar then .ok (buf, s)
    else if c = tabChar then
      .error ⟨"non-printable character", s.line, s.col⟩
    else
      if i ≥ 1 ∧ c = backslashChar then
        match he : (nextChar s).ch with
        | some e =>
          if e = 'n' then
            string_loop (i + 2) (buf ++ [c, 'n']) startLine startCol (nextChar (nextChar s))
          else if e = 't' then
            string_loop (i + 2) (buf ++ [c, 't']) startLine startCol (nextChar (nextChar s))
          else if e = quoteChar then
            string_loop (i + 2) (buf ++ [c, quoteChar]) startLine startCol (nextChar (nextChar s))
          else if e = backslashChar then
            string_loop (i + 2) (buf ++ [c, backslashChar]) startLine startCol (nextChar (nextChar s))
          else
            .error ⟨"illegal escape code", (nextChar s).line, (nextChar s).col - 1⟩
        | none => .error ⟨"illegal escape code", (nextChar s).line, (nextChar s).col - 1⟩
      else
        string_loop (i + 1) (buf ++ [c]) startLine startCol (nextChar s)
termination_by msr s
decreasing_by
  all_goals
    first
      | exact msr_nextChar_lt s c h
      | (have h1 : msr (nextChar s) < msr s := msr_nextChar_lt s c h
         have h2 : msr (nextChar (nextChar s)) < msr (nextChar s) :=
           msr_nextChar_lt (nextChar s) _ he
         omega)

/-- `process_string`: `start_col` and `start_line` are the entry position
minus one in both coordinates. -/
def processString (s : ScanState) : Except ScanErr (Token × ScanState) :=
  let startCol := s.col - 1
  let startLine := s.line - 1
  match string_loop 0 [] startLine startCol s with
  | .ok (buf, s1) => .ok ({ type := .TOK_STR, str := String.mk buf }, s1)
  | .error e => .error e

/-! ## `process_word`

The identifier loop stores at most `MAX_ID_LENGTH = 32` characters,
rejecting an underscore right after a digit (the C reads `lexeme[i-1]`,
which for `i = 0` is out of bounds; that read is modelled as "not a
digit") and an over-long identifier; a trailing caret is rejected after
the loop.  The reserved-word lookup is the binary search of
`process_word`: `low = 0`, `high = 26`, `mid = 13`, narrowing while
`high - low > 1` and answering as soon as the comparison hits `eq`. -/

def word_loop (i : Nat) (lex : List Char) (s : ScanState) :
    Except ScanErr (List Char × ScanState) :=
  match h : s.ch with
  | some c =>
    if isdigitC c || isalphaC c || c = '_' then
      if i < 32 then
        if c = '_' && (match lex.getLast? with
                       | some p => isdigitC p
                       | none => false) then
          .error ⟨"illegal identifier character", s.line, s.col⟩
        else
          word_loop (i + 1) (lex ++ [c]) (nextChar s)
      else
        .error ⟨"identifier too long", s.line, s.col⟩
    else
      .ok (lex, s)
  | none => .ok (lex, s)
termination_by msr s
decreasing_by exact msr_nextChar_lt s c h

/-- One probe of the reserved-word table. -/
def reservedAt (mid : Nat) : String × TokenType :=
  reservedWords.getD mid ("", .TOK_EOF)

/-- The `while (high - low > 1)` binary search of `process_word`.  The
interval shrinks every round, so 32 rounds of fuel can never run out on
the 26-entry table. -/
def binsearch_loop (fuel : Nat) (lex : String) (low high mid : Nat)
    (cmp : Ordering) : Option TokenType :=
  match fuel with
  | 0 => none
  | fuel + 1 =>
    if high - low > 1 then
      if cmp = Ordering.lt then
        let mid1 := (mid + low) / 2
        let cmp1 := compare lex (reservedAt mid1).fst
        if cmp1 = Ordering.eq then some (reservedAt mid1).snd
        else binsearch_loop fuel lex low mid mid1 cmp1
      else if cmp = Ordering.gt then
        let mid1 := (high + mid) / 2
        let cmp1 := compare lex (reservedAt mid1).fst
        if cmp1 = Ordering.eq then some (reservedAt mid1).snd
        else binsearch_loop fuel lex mid high mid1 cmp1
      else
        some (reservedAt mid).snd
    else
      none

/-- `process_word`: set `position.col = column_number`, scan the
identifier run, reject a caret, then classify against the reserved
words; an unmatched lexeme is a `TOK_ID`. -/
def processWord (s : ScanState) : Except ScanErr (Token × ScanState) :=
  match word_loop 0 [] { s with col := s.colNum } with
  | .error e => .error e
  | .ok (lex, s1) =>
    if s1.ch = some (Char.ofNat 94) then
      .error ⟨"illegal identifier character", s1.line, s1.col⟩
    else
      let lexs := String.mk lex
      match binsearch_loop 32 lexs 0 26 13 (compare lexs (reservedAt 13).fst) with
      | some t => .ok ({ type := t, lexeme := lexs }, s1)
      | none => .ok ({ type := .TOK_ID, lexeme := lexs }, s1)

/-! ## `skip_comment`

Recursive skipping of nested comments.  Each invocation records the
global position at its own entry as `start_pos`; on EOF it rewinds the
position to that `start_pos` and raises "comment not closed".  The
result carries the proof that at least one character was consumed, which
is what makes the nested recursion terminate. -/

def skipComment (startLine startCol : Int) (s : ScanState) :
    Except ScanErr { t : ScanState // msr t < msr s } :=
  match h : s.ch with
  | none => .error ⟨"comment not closed", startLine, startCol⟩
  | some c =>
    if hcl : c = braceClose then
      .ok ⟨nextChar s, msr_nextChar_lt s c h⟩
    else if hop : c = braceOpen then
      match skipComment (nextChar s).line (nextChar s).col (nextChar s) with
      | .error e => .error e
      | .ok ⟨s2, h2⟩ =>
        match skipComment startLine startCol s2 with
        | .error e => .error e
        | .ok ⟨s3, h3⟩ =>
          .ok ⟨s3, by
            have h1 : msr (nextChar s) < msr s := msr_nextChar_lt s c h
            omega⟩
    else
      match skipComment startLine startCol (nextChar s) with
      | .error e => .error e
      | .ok ⟨s2, h2⟩ =>
        .ok ⟨s2, by
          have h1 : msr (nextChar s) < msr s := msr_nextChar_lt s c h
          omega⟩
termination_by msr s
decreasing_by
  · exact msr_nextChar_lt s c h
  · have h1 : msr (nextChar s) < msr s := msr_nextChar_lt s c h
    omega
  · exact msr_nextChar_lt s c h

/-- The state after `skip_comment` succeeds, dropping the termination
certificate. -/
def skipCommentRun (startLine startCol : Int) (s : ScanState) :
    Except ScanErr ScanState :=
  (skipComment startLine startCol s).map Subtype.val

/-- The state in which `get_token` starts `skip_comment`: the opening
brace just consumed by `next_char` and `position.col` backed up by
one. -/
def commentEntry (s : ScanState) : ScanState :=
  { nextChar s with col := (nextChar s).col - 1 }

/-! ## `get_token`

Skip whitespace, remember the token start in `position.col`, then
dispatch on the character class; a `{` consumes the brace, backs the
column up by one, skips the comment and restarts `get_token`; at EOF the
token type is `TOK_EOF` and nothing else happens. -/

def get_token (s0 : ScanState) : Except ScanErr (Token × ScanState) :=
  let s := { skipWs s0 with col := (skipWs s0).colNum }
  match hch : s.ch with
  | none => .ok ({ type := .TOK_EOF }, s)
  | some c =>
    if isalphaC c || c = '_' then processWord s
    else if isdigitC c then processNumber s
    else if c = quoteChar then
      match processString (nextChar { s with col := s.colNum }) with
      | .error e => .error e
      | .ok (tok, s3) => .ok (tok, nextChar s3)
    else if hop : c = braceOpen then
      match skipComment (commentEntry s).line (commentEntry s).col (commentEntry s) with
      | .error e => .error e
      | .ok ⟨s5, h5⟩ => get_token s5
    else if c = '=' then .ok ({ type := .TOK_EQ }, nextChar s)
    else if c = '>' then
      if (nextChar s).ch = some '=' then
        .ok ({ type := .TOK_GE }, nextChar (nextChar s))
      else .ok ({ type := .TOK_GT }, nextChar s)
    else if c = '<' then
      if (nextChar s).ch = some '=' then
        .ok ({ type := .TOK_LE }, nextChar (nextChar s))
      else .ok ({ type := .TOK_LT }, nextChar s)
    else if c = '/' then
      if (nextChar s).ch = some '=' then
        .ok ({ type := .TOK_NE }, nextChar (nextChar s))
      else .ok ({ type := .TOK_DIV }, nextChar s)
    else if c = '-' then .ok ({ type := .TOK_MINUS }, nextChar s)
    else if c = '+' then .ok ({ type := .TOK_PLUS }, nextChar s)
    else if c = '%' then .ok ({ type := .TOK_MOD }, nextChar s)
    else if c = '*' then .ok ({ type := .TOK_MUL }, nextChar s)
    else if c = '(' then .ok ({ type := .TOK_LPAR }, nextChar s)
    else if c = ')' then .ok ({ type := .TOK_RPAR }, nextChar s)
    else if c = '&' then .ok ({ type := .TOK_CAT }, nextChar s)
    else if c = ',' then .ok ({ type := .TOK_COMMA }, nextChar s)
    else if c = ':' then .ok ({ type := .TOK_COLON }, nextChar s)
    else if c = ';' then .ok ({ type := .TOK_SEMICOLON }, nextChar s)
    else if c = '[' then .ok ({ type := .TOK_LBRACK }, nextChar s)
    else if c = ']' then .ok ({ type := .TOK_RBRACK }, nextChar s)
    else .error ⟨"illegal character", s.line, s.col⟩
termination_by msr s0
decreasing_by
  have hle : msr (skipWs s0) ≤ msr s0 := msr_skipWs_le s0
  have h2 : msr (nextChar { skipWs s0 with col := (skipWs s0).colNum }) <
      msr (skipWs s0) :=
    msr_nextChar_lt _ c hch
  have h6 : msr s5 <
      msr (nextChar { skipWs s0 with col := (skipWs s0).colNum }) := h5
  exact lt_of_lt_of_le (lt_trans h6 h2) hle

/-- A well-nested comment body: everything between the opening brace and
its matching close, the final close brace included. -/
inductive Balanced : List Char → Prop where
  | close : Balanced [braceClose]
  | plain (c : Char) (cs : List Char) :
      c ≠ braceOpen → c ≠ braceClose → Balanced cs → Balanced (c :: cs)
  | nest (inner rest : List Char) :
      Balanced inner → Balanced rest → Balanced (braceOpen :: (inner ++ rest))

/-- One step of decimal accumulation, as in `process_number`:
`value * 10 + (ch - '0')`. -/
def digit_step (v : Nat) (c : Char) : Nat := v * 10 + (c.toNat - 48)

/-- The decimal value of a digit run, most significant digit first. -/
def digit_run_val (l : List Char) : Nat := l.foldl digit_step 0

/-! ## Value types (`valtypes.h`)

`ValType` is a bitset over ARRAY = 1, BOOLEAN = 2, INTEGER = 4,
CALLABLE = 8, here a plain `Nat` with the macros as `Bool`-valued
functions. -/

def TYPE_NONE : Nat := 0

def TYPE_ARRAY : Nat := 1

def TYPE_BOOLEAN : Nat := 2

def TYPE_INTEGER : Nat := 4

def TYPE_CALLABLE : Nat := 8

def IS_ARRAY_TYPE (t : Nat) : Bool := t &&& TYPE_ARRAY != 0

def IS_BOOLEAN_TYPE (t : Nat) : Bool := t &&& TYPE_BOOLEAN != 0

def IS_INTEGER_TYPE (t : Nat) : Bool := t &&& TYPE_INTEGER != 0

def IS_CALLABLE_TYPE (t : Nat) : Bool := t &&& TYPE_CALLABLE != 0

def IS_VARIABLE (t : Nat) : Bool :=
  !IS_CALLABLE_TYPE t && (IS_BOOLEAN_TYPE t || IS_INTEGER_TYPE t)

/-! ## Symbol table (`symboltable.c`, `hashtable.c`)

The hash table stores disjoint keys (`ht_insert` refuses a key that
`ht_search` already finds), so each scope is modelled as the list of its
`(key, value)` entries in insertion order and `ht_search` as the walk
that returns the first entry whose key compares equal.  The table sizing
and rehashing of `hashtable.c` only redistribute entries over buckets
and are invisible to search. -/

structure IDprop where
  type : Nat
  offset : Nat
  nparams : Nat
  params : List Nat
deriving DecidableEq, Repr

abbrev Scope := List (String × IDprop)

/-- `ht_search`: walk the entries, return the first value whose key
compares equal to `key`. -/
def ht_search (key : String) : Scope → Option IDprop
  | [] => none
  | (k, v) :: rest => if key = k then some v else ht_search key rest

/-- `ht_insert`: `HASH_TABLE_KEY_VALUE_PAIR_EXISTS` (here `none`) when
`ht_search` already finds the key, otherwise the table with the new
entry. -/
def ht_insert (t : Scope) (key : String) (v : IDprop) : Option Scope :=
  if (ht_search key t).isSome then none else some (t ++ [(key, v)])

/-- The globals of `symboltable.c`: `table`, `saved_table` (NULL when no
subroutine scope was ever opened) and the running `curr_offset`. -/
structure SymTab where
  table : Scope
  saved : Option Scope
  currOffset : Nat
deriving DecidableEq, Repr

/-- Fatal parse-time errors raised from the symbol table through
`abort_compile`. -/
inductive CompileErr where
  | multipleDefinition (id : String)
deriving DecidableEq, Repr

/-- `init_symbol_table`: empty global scope, no saved table, offset 0. -/
def init_symbol_table : SymTab := ⟨[], none, 0⟩

/-- `find_name`: search the active table; on a miss and with a saved
(global) table present, search that one too, but discard a match whose
type is not callable. -/
def find_name (st : SymTab) (id : String) : Option IDprop :=
  match ht_search id st.table with
  | some p => some p
  | none =>
    match st.saved with
    | none => none
    | some sv =>
      match ht_search id sv with
      | some p => if IS_CALLABLE_TYPE p.type then some p else none
      | none => none

/-- `insert_name`: a name `find_name` already sees aborts compilation
with "multiple definition"; otherwise a variable (integer/boolean bit
set, not "main", not callable) receives the current offset and the
counter advances; then the pair goes into the active table.  The
`ht_insert` failure branch decrements the (unsigned) counter whenever
the type has an integer or boolean bit and reports `false`. -/
def insert_name (st : SymTab) (id : String) (prop : IDprop) :
    Except CompileErr (Bool × IDprop × SymTab) :=
  if (find_name st id).isSome then
    .error (.multipleDefinition id)
  else
    let bumped := (IS_INTEGER_TYPE prop.type || IS_BOOLEAN_TYPE prop.type) &&
      !(id = "main") && !(IS_CALLABLE_TYPE prop.type)
    let prop1 := if bumped then { prop with offset := st.currOffset } else prop
    let off1 := if bumped then st.currOffset + 1 else st.currOffset
    match ht_insert st.table id prop1 with
    | some t1 => .ok (true, prop1, { st with table := t1, currOffset := off1 })
    | none =>
      let off2 := if IS_INTEGER_TYPE prop.type || IS_BOOLEAN_TYPE prop.type then
          (off1 + 4294967295) % 4294967296
        else off1
      .ok (false, prop1, { st with currOffset := off2 })

/-- `open_subroutine`: reset the offset, insert the subroutine name into
the still-active global table; on success save the global table and
activate a fresh empty one. -/
def open_subroutine (st : SymTab) (id : String) (prop : IDprop) :
    Except CompileErr (Bool × SymTab) :=
  match insert_name { st with currOffset := 0 } id prop with
  | .error e => .error e
  | .ok (true, _, st1) => .ok (true, { st1 with saved := some st1.table, table := [] })
  | .ok (false, _, st1) => .ok (false, st1)

/-- `close_subroutine`: drop the subroutine table and reactivate the
saved one; `saved_table` itself and `curr_offset` are left alone.  (With
no saved table the C leaves `table` as a null pointer; here the active
table becomes empty.) -/
def close_subroutine (st : SymTab) : SymTab :=
  match st.saved with
  | some sv => { st with table := sv }
  | none => { st with table := [] }

def get_variables_width (st : SymTab) : Nat := st.currOffset

def reset_offset (st : SymTab) : SymTab := { st with currOffset := 0 }

def return_curr_offset (st : SymTab) : Nat := st.currOffset

/-- The declaration loop at the end of `parse_body`: one fresh
`idprop(type, 0, 0, NULL)` and one `insert_name` per declared variable,
ignoring the boolean result. -/
def insert_vars (st : SymTab) : List (String × Nat) → Except CompileErr SymTab
  | [] => .ok st
  | (id, ty) :: rest =>
    match insert_name st id ⟨ty, 0, 0, []⟩ with
    | .error e => .error e
    | .ok (_, _, st1) => insert_vars st1 rest

/-! ## Argument counting in calls (`amplc.c`)

`parse_factor`'s call branch and `parse_do` both parse a comma-separated
argument list against `idp->nparams`.  The models below take the declared
parameter count and the number of well-typed arguments the input
supplies and reproduce the control flow of the counting code exactly;
the per-argument type check (`check_types` against `idp->params[i]`) is
assumed to pass, since the claims are about counts. -/

inductive CallOutcome where
  | ok
  | tooFew
  | tooMany
  | missingFactor
deriving DecidableEq, Repr

/-- The `while (token.type == TOK_COMMA && current_param < nparams)` loop
of `parse_factor` (with `nparams` an `int`), entered after the first
argument was parsed, followed by the `current_param != nparams - 1`
check; `remaining` counts the arguments still in the input, each one
preceded by a comma. -/
def factor_call_loop (nparams current : Int) (remaining : Nat) : CallOutcome :=
  match remaining with
  | 0 =>
    if current = nparams - 1 then .ok
    else if current < nparams - 1 then .tooFew
    else .tooMany
  | remaining + 1 =>
    if current < nparams then
      if current + 1 = nparams then .tooMany
      else factor_call_loop nparams (current + 1) remaining
    else
      if current = nparams - 1 then .ok
      else if current < nparams - 1 then .tooFew
      else .tooMany

/-- The call branch of `parse_factor`: with no argument present
(`STARTS_EXPR` fails on `)`), the whole argument block — checks
included — is skipped; otherwise the first argument is parsed and the
loop runs. -/
def parse_factor_call (nparams : Nat) (nargs : Nat) : CallOutcome :=
  match nargs with
  | 0 => .ok
  | nargs + 1 => factor_call_loop (nparams : Int) 0 nargs

/-- The `while (token.type == TOK_COMMA)` loop of `parse_do`
(`current_param` and `nparams` are C unsigned ints), followed by the
`current_param < idp->nparams - 1` check in unsigned arithmetic. -/
def do_call_loop (nparams current : Nat) (remaining : Nat) : CallOutcome :=
  match remaining with
  | 0 =>
    if current < (nparams + 4294967295) % 4294967296 then .tooFew else .ok
  | remaining + 1 =>
    let current1 := (current + 1) % 4294967296
    if current1 = nparams then .tooMany
    else do_call_loop nparams current1 remaining

/-- `parse_do` after the procedure name: `expect(TOK_LPAR)` is followed
by an unconditional `parse_expr`, so an empty argument list dies inside
`parse_term` with "expected factor"; otherwise the comma loop runs. -/
def parse_do_call (nparams : Nat) (nargs : Nat) : CallOutcome :=
  match nargs with
  | 0 => .missingFactor
  | nargs + 1 => do_call_loop nparams 0 nargs

/-! ## Ordering comparisons (`parse_expr`)

In the `TOK_GE | TOK_GT | TOK_LE | TOK_LT` branch the left operand type
is accepted if it is `TYPE_INTEGER` outright or becomes `TYPE_INTEGER`
after `type1 ^ TYPE_CALLABLE`; the right operand then goes through
`check_types(type2, TYPE_INTEGER, ...)`, which has no such masking. -/

inductive TypeCheckResult where
  | ok (result : Nat)
  | mismatch (found expected : Nat)
deriving DecidableEq, Repr

/-- The ordering-comparison branch of `parse_expr` (amplc.c lines
965–999), as a function of the operand types that the two
`parse_simple` calls produced. -/
def parse_expr_ordcheck (type1 type2 : Nat) : TypeCheckResult :=
  if type1 ≠ TYPE_INTEGER ∧ (type1 ^^^ TYPE_CALLABLE) ≠ TYPE_INTEGER then
    .mismatch type1 TYPE_INTEGER
  else if type2 ≠ TYPE_INTEGER then
    .mismatch type2 TYPE_INTEGER
  else
    .ok TYPE_BOOLEAN

/-! ## Basic facts about states and scopes -/

theorem setCol_ch (s : ScanState) (x : Int) :
    ({ s with col := x } : ScanState).ch = s.ch := rfl

theorem setCol_input (s : ScanState) (x : Int) :
    ({ s with col := x } : ScanState).input = s.input := rfl

theorem setCol_line (s : ScanState) (x : Int) :
    ({ s with col := x } : ScanState).line = s.line := rfl

theorem setCol_colNum (s : ScanState) (x : Int) :
    ({ s with col := x } : ScanState).colNum = s.colNum := rfl

theorem lookStream_setCol (s : ScanState) (x : Int) :
    lookStream { s with col := x } = lookStream s := rfl

theorem ch_none_of_lookStream_nil (s : ScanState) (h : lookStream s = []) :
    s.ch = none := by
  unfold lookStream at h
  cases hch : s.ch with
  | none => rfl
  | some c => rw [hch] at h; simp at h

theorem nextChar_pos_of_ne_newline (s : ScanState) (c : Char)
    (h : s.ch = some c) (hc : c ≠ newlineChar) :
    (nextChar s).line = s.line ∧ (nextChar s).col = s.col + 1 ∧
    (nextChar s).colNum = s.colNum + 1 := by
  unfold nextChar
  rw [if_neg (by rw [h]; simp [hc])]
  exact ⟨rfl, rfl, rfl⟩

/-- Consuming a newline-free chunk advances the column by its length and
leaves the line alone. -/
theorem iterate_pos_of_no_newline (l : List Char) :
    ∀ (s : ScanState) (r : List Char), lookStream s = l ++ r →
      (∀ c ∈ l, c ≠ newlineChar) →
      (nextChar^[l.length] s).line = s.line ∧
      (nextChar^[l.length] s).col = s.col + l.length ∧
      (nextChar^[l.length] s).colNum = s.colNum + l.length := by
  induction l with
  | nil => intro s r h hn; simp
  | cons c t ih =>
    intro s r h hn
    have hch : s.ch = some c := ch_of_lookStream s c (t ++ r) (by simpa using h)
    have hcnl : c ≠ newlineChar := hn c (by simp)
    have hpos := nextChar_pos_of_ne_newline s c hch hcnl
    have hlook : lookStream (nextChar s) = t ++ r :=
      lookStream_nextChar s c (t ++ r) (by simpa using h)
    have iht := ih (nextChar s) r hlook (fun d hd => hn d (by simp [hd]))
    simp only [List.length_cons, Function.iterate_succ_apply]
    refine ⟨?_, ?_, ?_⟩
    · rw [iht.1, hpos.1]
    · rw [iht.2.1, hpos.2.1]; push_cast; ring
    · rw [iht.2.2, hpos.2.2]; push_cast; ring

theorem ht_search_append (v : String) (t1 t2 : Scope) :
    ht_search v (t1 ++ t2) =
      match ht_search v t1 with
      | some p => some p
      | none => ht_search v t2 := by
  induction t1 with
  | nil => simp [ht_search]
  | cons e rest ih =>
    obtain ⟨k, p⟩ := e
    by_cases hk : v = k
    · simp [ht_search, hk]
    · simp [ht_search, hk, ih]

/-! ## Claim C1 — `insert_name` on a duplicate

`insert_name` does not return `false` on a name that is already bound:
it raises the fatal "multiple definition" error itself, and
`open_subroutine` on a name already in the global scope therefore aborts
instead of returning `false`. -/

/-- A callable identifier entry used in the concrete symbol-table
scenarios. -/
def fnProp : IDprop := ⟨TYPE_CALLABLE ||| TYPE_INTEGER, 0, 1, [TYPE_INTEGER]⟩

/-- A global scope that already binds the subroutine name "f". -/
def globalWithF : SymTab := ⟨[("f", fnProp)], none, 0⟩

/-- Claim C1: the claim says that `insert_name` reports a duplicate of a
name bound in the current scope by returning `false` without aborting,
and that `open_subroutine` on a name already in the global scope returns
`false` without opening a scope.  The code instead raises the fatal
"multiple definition" error from inside `insert_name`, so both calls
abort compilation: evaluating the embedded code on a scope that already
binds "f" yields the abort, not a `false` return. -/
theorem C1_insert_name_aborts_on_duplicate :
    insert_name globalWithF "f" fnProp = .error (.multipleDefinition "f") ∧
    open_subroutine globalWithF "f" fnProp = .error (.multipleDefinition "f") := by
  constructor <;> rfl

/-! ## Claim C6 — `find_name` search order and the callable filter -/

/-- Claim C6: `find_name` finds `p` exactly when the current scope binds
it, or the current scope misses, a saved enclosing scope exists, that
scope binds `p`, and `p` is callable; any non-callable match in the
enclosing scope is reported as not found. -/
theorem C6_find_name_characterisation (st : SymTab) (id : String) (p : IDprop) :
    find_name st id = some p ↔
      (ht_search id st.table = some p ∨
       (ht_search id st.table = none ∧ ∃ sv, st.saved = some sv ∧
        ht_search id sv = some p ∧ IS_CALLABLE_TYPE p.type = true)) := by
  constructor
  · intro h
    unfold find_name at h
    split at h
    next q h1 =>
      cases h
      exact Or.inl h1
    next h1 =>
      split at h
      next h2 => simp at h
      next sv h2 =>
        split at h
        next q h3 =>
          split at h
          next hc =>
            cases h
            exact Or.inr ⟨h1, sv, h2, h3, hc⟩
          next hc => simp at h
        next h3 => simp at h
  · intro h
    unfold find_name
    rcases h with h | ⟨h1, sv, h2, h3, hc⟩
    · simp [h]
    · simp [h1, h2, h3, hc]

/-! ## `insert_name` bookkeeping -/

theorem find_name_none_ht_search_none (st : SymTab) (id : String)
    (h : find_name st id = none) : ht_search id st.table = none := by
  cases hx : ht_search id st.table with
  | none => rfl
  | some q => unfold find_name at h; rw [hx] at h; simp at h

/-- On a fresh name, `insert_name` always takes the successful
`ht_insert` branch: the entry gets the current offset exactly when the
identifier is a variable (integer or boolean bit set, not "main", not
callable), and only then does the counter advance. -/
theorem insert_name_fresh (st : SymTab) (id : String) (prop : IDprop)
    (h : find_name st id = none) :
    insert_name st id prop =
      .ok (true,
        (if ((IS_INTEGER_TYPE prop.type || IS_BOOLEAN_TYPE prop.type) &&
             !(id = "main") && !(IS_CALLABLE_TYPE prop.type)) = true
         then { prop with offset := st.currOffset } else prop),
        { st with
          table := st.table ++
            [(id,
              (if ((IS_INTEGER_TYPE prop.type || IS_BOOLEAN_TYPE prop.type) &&
                   !(id = "main") && !(IS_CALLABLE_TYPE prop.type)) = true
               then { prop with offset := st.currOffset } else prop))],
          currOffset :=
            (if ((IS_INTEGER_TYPE prop.type || IS_BOOLEAN_TYPE prop.type) &&
                 !(id = "main") && !(IS_CALLABLE_TYPE prop.type)) = true
             then st.currOffset + 1 else st.currOffset) }) := by
  have hs : ht_search id st.table = none := find_name_none_ht_search_none st id h
  unfold insert_name ht_insert
  rw [if_neg (by rw [h]; simp)]
  rw [hs]
  simp

theorem insert_name_offset (st : SymTab) (id : String) (prop : IDprop)
    (b : Bool) (pr : IDprop) (st1 : SymTab)
    (h : insert_name st id prop = .ok (b, pr, st1)) :
    st1.currOffset =
      (if ((IS_INTEGER_TYPE prop.type || IS_BOOLEAN_TYPE prop.type) &&
            !(id = "main") && !(IS_CALLABLE_TYPE prop.type)) = true
       then st.currOffset + 1 else st.currOffset) := by
  by_cases hfn : find_name st id = none
  · rw [insert_name_fresh st id prop hfn] at h
    simp only [Except.ok.injEq, Prod.mk.injEq] at h
    obtain ⟨-, -, hst⟩ := h
    subst hst
    rfl
  · unfold insert_name at h
    have hps : (find_name st id).isSome = true := Option.isSome_iff_ne_none.mpr hfn
    rw [if_pos hps] at h
    simp at h

/-- On a fresh variable name the insertion succeeds, the entry gets the
current offset, and the counter advances by one. -/
theorem insert_name_fresh_var (st : SymTab) (id : String) (prop : IDprop)
    (h : find_name st id = none)
    (hv : (IS_INTEGER_TYPE prop.type || IS_BOOLEAN_TYPE prop.type) = true)
    (hm : id ≠ "main")
    (hc : IS_CALLABLE_TYPE prop.type = false) :
    insert_name st id prop =
      .ok (true, { prop with offset := st.currOffset },
        { st with table := st.table ++ [(id, { prop with offset := st.currOffset })],
                  currOffset := st.currOffset + 1 }) := by
  have hb : ((IS_INTEGER_TYPE prop.type || IS_BOOLEAN_TYPE prop.type) &&
      !(id = "main") && !(IS_CALLABLE_TYPE prop.type)) = true := by
    simp [hv, hm, hc]
  rw [insert_name_fresh st id prop h]
  simp [hb]

/-- Claim C9: `close_subroutine` reinstates the saved global scope and
leaves the offset counter (as observed through `get_variables_width`)
exactly as it was at the moment of closing; `reset_offset` zeroes the
counter explicitly, a successful `open_subroutine` of a callable leaves
it at zero, and a successful `insert_name` can only keep or advance the
counter, never reset it. -/
theorem C9_close_subroutine_offset :
    (∀ (st : SymTab) (g : Scope), st.saved = some g →
       close_subroutine st = { st with table := g }) ∧
    (∀ st : SymTab,
       get_variables_width (close_subroutine st) = get_variables_width st) ∧
    (∀ st : SymTab, (reset_offset st).currOffset = 0) ∧
    (∀ (st : SymTab) (id : String) (p : IDprop) (st1 : SymTab),
       open_subroutine st id p = .ok (true, st1) →
       IS_CALLABLE_TYPE p.type = true → st1.currOffset = 0) ∧
    (∀ (st : SymTab) (id : String) (p : IDprop) (b : Bool) (pr : IDprop)
       (st1 : SymTab), insert_name st id p = .ok (b, pr, st1) →
       st1.currOffset = st.currOffset ∨ st1.currOffset = st.currOffset + 1) := by
  refine ⟨?_, ?_, ?_, ?_, ?_⟩
  · intro st g hg
    unfold close_subroutine
    rw [hg]
  · intro st
    unfold close_subroutine get_variables_width
    cases st.saved <;> rfl
  · intro st; rfl
  · intro st id p st1 h hcall
    unfold open_subroutine at h
    split at h
    next => cases h
    next pr st2 hins =>
      simp only [Except.ok.injEq, Prod.mk.injEq] at h
      obtain ⟨-, hst⟩ := h
      subst hst
      have := insert_name_offset { st with currOffset := 0 } id p true pr st2 hins
      simp only [hcall] at this
      simpa using this
    next pr st2 hins =>
      simp only [Except.ok.injEq, Prod.mk.injEq] at h
      obtain ⟨hb, -⟩ := h
      cases hb
  · intro st id p b pr st1 h
    have := insert_name_offset st id p b pr st1 h
    by_cases hb : ((IS_INTEGER_TYPE p.type || IS_BOOLEAN_TYPE p.type) &&
        !(id = "main") && !(IS_CALLABLE_TYPE p.type)) = true
    · right; rw [this, if_pos hb]
    · left; rw [this, if_neg hb]

/-- Claim C9 witness: a concrete subroutine scope with two local slots
is closed; the width accessor still reports two afterwards, and the
saved global scope is active again. -/
theorem C9_close_subroutine_offset_witness :
    close_subroutine ⟨[("x", ⟨TYPE_INTEGER, 0, 0, []⟩)], some [("f", fnProp)], 2⟩ =
      { (⟨[("x", ⟨TYPE_INTEGER, 0, 0, []⟩)], some [("f", fnProp)], 2⟩ : SymTab) with
        table := [("f", fnProp)] } ∧
    get_variables_width (close_subroutine
      ⟨[("x", ⟨TYPE_INTEGER, 0, 0, []⟩)], some [("f", fnProp)], 2⟩) =
      get_variables_width ⟨[("x", ⟨TYPE_INTEGER, 0, 0, []⟩)], some [("f", fnProp)], 2⟩ :=
  ⟨C9_close_subroutine_offset.1 _ [("f", fnProp)] rfl,
   C9_close_subroutine_offset.2.1 _⟩

/-! ## Claim C8 — sequential offsets for a declaration group -/

/-- A name unknown to `find_name` stays unknown after an unrelated entry
is appended to the active table (the saved scope is untouched). -/
theorem find_name_none_extend (tbl : Scope) (sv : Option Scope) (c c2 : Nat)
    (id id2 : String) (p : IDprop) (hne : id2 ≠ id)
    (h : find_name ⟨tbl, sv, c⟩ id2 = none) :
    find_name ⟨tbl ++ [(id, p)], sv, c2⟩ id2 = none := by
  have hs : ht_search id2 tbl = none := find_name_none_ht_search_none ⟨tbl, sv, c⟩ id2 h
  unfold find_name at h ⊢
  rw [hs] at h
  rw [ht_search_append, hs]
  simpa [ht_search, hne] using h

/-- The `parse_body` declaration loop: starting from any table state,
a group of pairwise distinct fresh variable names is inserted entry by
entry, each receiving the next counter value, so the i-th name of the
group ends up with offset `currOffset + i`. -/
theorem insert_vars_spec (vars : List (String × Nat)) :
    ∀ st : SymTab,
      (vars.map Prod.fst).Nodup →
      (∀ v ∈ vars, find_name st v.1 = none ∧ v.1 ≠ "main" ∧
        (IS_INTEGER_TYPE v.2 || IS_BOOLEAN_TYPE v.2) = true ∧
        IS_CALLABLE_TYPE v.2 = false) →
      ∃ ext : Scope,
        insert_vars st vars = .ok
          { st with table := st.table ++ ext,
                    currOffset := st.currOffset + vars.length } ∧
        ∀ i (hi : i < vars.length),
          ht_search (vars.get ⟨i, hi⟩).1 (st.table ++ ext) =
            some ⟨(vars.get ⟨i, hi⟩).2, st.currOffset + i, 0, []⟩ := by
  induction vars with
  | nil =>
    intro st hnd hall
    refine ⟨[], ?_, ?_⟩
    · simp [insert_vars]
    · intro i hi; simp at hi
  | cons v rest ih =>
    obtain ⟨id, ty⟩ := v
    intro st hnd hall
    obtain ⟨tbl, sv, c⟩ := st
    obtain ⟨hfresh, hmain, hvar, hcall⟩ := hall (id, ty) (by simp)
    have hstep2 : insert_name ⟨tbl, sv, c⟩ id ⟨ty, 0, 0, []⟩ =
        .ok (true, (⟨ty, c, 0, []⟩ : IDprop),
          (⟨tbl ++ [(id, ⟨ty, c, 0, []⟩)], sv, c + 1⟩ : SymTab)) :=
      insert_name_fresh_var ⟨tbl, sv, c⟩ id ⟨ty, 0, 0, []⟩ hfresh hvar hmain hcall
    have hnotin : id ∉ rest.map Prod.fst := by
      have := hnd
      simp only [List.map_cons, List.nodup_cons] at this
      exact this.1
    have hih := ih (⟨tbl ++ [(id, ⟨ty, c, 0, []⟩)], sv, c + 1⟩ : SymTab)
      (by
        have := hnd
        simp only [List.map_cons, List.nodup_cons] at this
        exact this.2)
      (by
        intro w hw
        obtain ⟨hf2, hm2, hv2, hc2⟩ := hall w (by simp [hw])
        refine ⟨?_, hm2, hv2, hc2⟩
        have hwne : w.1 ≠ id := by
          intro hcon
          exact hnotin (by
            rw [← hcon]
            exact List.mem_map_of_mem Prod.fst hw)
        exact find_name_none_extend tbl sv c (c + 1) id w.1 ⟨ty, c, 0, []⟩ hwne hf2)
    obtain ⟨ext1, hrun, hlook⟩ := hih
    have hrun2 : insert_vars (⟨tbl ++ [(id, ⟨ty, c, 0, []⟩)], sv, c + 1⟩ : SymTab) rest =
        .ok (⟨(tbl ++ [(id, ⟨ty, c, 0, []⟩)]) ++ ext1, sv, (c + 1) + rest.length⟩ : SymTab) :=
      hrun
    have hlook2 : ∀ i (hi : i < rest.length),
        ht_search (rest.get ⟨i, hi⟩).1 ((tbl ++ [(id, ⟨ty, c, 0, []⟩)]) ++ ext1) =
          some ⟨(rest.get ⟨i, hi⟩).2, (c + 1) + i, 0, []⟩ := hlook
    refine ⟨(id, ⟨ty, c, 0, []⟩) :: ext1, ?_, ?_⟩
    · unfold insert_vars
      rw [hstep2]
      show insert_vars (⟨tbl ++ [(id, ⟨ty, c, 0, []⟩)], sv, c + 1⟩ : SymTab) rest = _
      rw [hrun2]
      have hA : (tbl ++ [(id, (⟨ty, c, 0, []⟩ : IDprop))]) ++ ext1 =
          tbl ++ (id, (⟨ty, c, 0, []⟩ : IDprop)) :: ext1 := by simp
      have hB : c + 1 + rest.length = c + ((id, ty) :: rest).length := by
        simp only [List.length_cons]
        omega
      rw [hA, hB]
    · intro i hi
      have hl : tbl ++ (id, (⟨ty, c, 0, []⟩ : IDprop)) :: ext1 =
          (tbl ++ [(id, ⟨ty, c, 0, []⟩)]) ++ ext1 := by simp
      match i with
      | 0 =>
        have hs0 : ht_search id tbl = none :=
          find_name_none_ht_search_none ⟨tbl, sv, c⟩ id hfresh
        show ht_search id (tbl ++ (id, (⟨ty, c, 0, []⟩ : IDprop)) :: ext1) =
          some ⟨ty, c + 0, 0, []⟩
        rw [hl, ht_search_append, ht_search_append, hs0]
        simp [ht_search]
      | Nat.succ j =>
        have hj : j < rest.length := by simpa using hi
        have hthis := hlook2 j hj
        show ht_search (rest.get ⟨j, hj⟩).1
            (tbl ++ (id, (⟨ty, c, 0, []⟩ : IDprop)) :: ext1) =
          some ⟨(rest.get ⟨j, hj⟩).2, c + (j + 1), 0, []⟩
        rw [hl, show c + (j + 1) = (c + 1) + j from by omega]
        exact hthis

/-- Claim C8: declaring a group of two or more fresh, distinct variable
names inserts them in declaration order, the i-th receiving offset
`currOffset + i` — so the recorded offsets are pairwise distinct and
strictly increasing, each insertion taking the next counter value and
advancing it by one. -/
theorem C8_var_group_offsets (vars : List (String × Nat)) (st : SymTab)
    (hnd : (vars.map Prod.fst).Nodup)
    (hall : ∀ v ∈ vars, find_name st v.1 = none ∧ v.1 ≠ "main" ∧
        (IS_INTEGER_TYPE v.2 || IS_BOOLEAN_TYPE v.2) = true ∧
        IS_CALLABLE_TYPE v.2 = false) :
    ∃ st1 : SymTab, insert_vars st vars = .ok st1 ∧
      st1.currOffset = st.currOffset + vars.length ∧
      (∀ i (hi : i < vars.length),
        ht_search (vars.get ⟨i, hi⟩).1 st1.table =
          some ⟨(vars.get ⟨i, hi⟩).2, st.currOffset + i, 0, []⟩) ∧
      (∀ i j (hi : i < vars.length) (hj : j < vars.length), i < j →
        ∃ p q : IDprop,
          ht_search (vars.get ⟨i, hi⟩).1 st1.table = some p ∧
          ht_search (vars.get ⟨j, hj⟩).1 st1.table = some q ∧
          p.offset < q.offset) := by
  obtain ⟨ext, hrun, hlook⟩ := insert_vars_spec vars st hnd hall
  refine ⟨_, hrun, rfl, ?_, ?_⟩
  · intro i hi
    exact hlook i hi
  · intro i j hi hj hij
    exact ⟨_, _, hlook i hi, hlook j hj, by simp; omega⟩

/-- Claim C8 witness: inserting the group `x, y as integer` into a fresh
symbol table gives `x` offset 0 and `y` offset 1. -/
theorem C8_var_group_offsets_witness :
    ∃ st1 : SymTab,
      insert_vars init_symbol_table [("x", TYPE_INTEGER), ("y", TYPE_INTEGER)] = .ok st1 ∧
      st1.currOffset = init_symbol_table.currOffset + 2 ∧
      (∀ i (hi : i < ([("x", TYPE_INTEGER), ("y", TYPE_INTEGER)] :
            List (String × Nat)).length),
        ht_search (([("x", TYPE_INTEGER), ("y", TYPE_INTEGER)] :
            List (String × Nat)).get ⟨i, hi⟩).1 st1.table =
          some ⟨(([("x", TYPE_INTEGER), ("y", TYPE_INTEGER)] :
            List (String × Nat)).get ⟨i, hi⟩).2,
            init_symbol_table.currOffset + i, 0, []⟩) ∧
      (∀ i j (hi : i < ([("x", TYPE_INTEGER), ("y", TYPE_INTEGER)] :
            List (String × Nat)).length)
         (hj : j < ([("x", TYPE_INTEGER), ("y", TYPE_INTEGER)] :
            List (String × Nat)).length), i < j →
        ∃ p q : IDprop,
          ht_search (([("x", TYPE_INTEGER), ("y", TYPE_INTEGER)] :
              List (String × Nat)).get ⟨i, hi⟩).1 st1.table = some p ∧
          ht_search (([("x", TYPE_INTEGER), ("y", TYPE_INTEGER)] :
              List (String × Nat)).get ⟨j, hj⟩).1 st1.table = some q ∧
          p.offset < q.offset) :=
  C8_var_group_offsets [("x", TYPE_INTEGER), ("y", TYPE_INTEGER)]
    init_symbol_table (by decide) (by decide)

/-! ## Claim C2 — argument counting in calls -/

theorem factor_call_loop_spec (nparams : Int) (remaining : Nat) :
    ∀ current : Int, 0 ≤ current → current < nparams →
      factor_call_loop nparams current remaining =
        (if current + remaining + 1 = nparams then .ok
         else if current + remaining + 1 < nparams then .tooFew
         else .tooMany) := by
  induction remaining with
  | zero =>
    intro current h0 h1
    unfold factor_call_loop
    split_ifs <;> first | rfl | omega
  | succ r ih =>
    intro current h0 h1
    unfold factor_call_loop
    rw [if_pos h1]
    by_cases he : current + 1 = nparams
    · rw [if_pos he]
      split_ifs <;> first | rfl | omega
    · rw [if_neg he, ih (current + 1) (by omega) (by omega)]
      split_ifs <;> first | rfl | omega

theorem do_call_loop_spec (nparams : Nat) (hnp1 : 1 ≤ nparams)
    (hnp2 : nparams ≤ 2147483647) (remaining : Nat) :
    ∀ current : Nat, current < nparams →
      do_call_loop nparams current remaining =
        (if current + remaining + 1 = nparams then .ok
         else if current + remaining + 1 < nparams then .tooFew
         else .tooMany) := by
  induction remaining with
  | zero =>
    intro current h1
    show (if current < (nparams + 4294967295) % 4294967296 then
        CallOutcome.tooFew else CallOutcome.ok) = _
    have hm : (nparams + 4294967295) % 4294967296 = nparams - 1 := by omega
    rw [hm]
    split_ifs <;> first | rfl | omega
  | succ r ih =>
    intro current h1
    show (if (current + 1) % 4294967296 = nparams then CallOutcome.tooMany
        else do_call_loop nparams ((current + 1) % 4294967296) r) = _
    have hm : (current + 1) % 4294967296 = current + 1 := by omega
    rw [hm]
    by_cases he : current + 1 = nparams
    · rw [if_pos he]
      split_ifs <;> first | rfl | omega
    · rw [if_neg he, ih (current + 1) (by omega)]
      split_ifs <;> first | rfl | omega

/-- Claim C2 counterexample: the claim says calling a one-parameter
subroutine with an empty argument list raises the too-few-arguments
error.  In the code, a call expression `f()` skips the argument checks
entirely (no error at all), and a do-statement `do f()` dies inside
`parse_expr` with the "expected factor" syntax error — neither raises
"too few arguments". -/
theorem C2_empty_call_counterexample :
    parse_factor_call 1 0 = CallOutcome.ok ∧
    parse_do_call 1 0 = CallOutcome.missingFactor ∧
    parse_factor_call 1 0 ≠ CallOutcome.tooFew ∧
    parse_do_call 1 0 ≠ CallOutcome.tooFew := by
  refine ⟨rfl, rfl, ?_, ?_⟩ <;> decide

/-- Claim C2 as amended: for a call with at least one argument, both the
call-expression path and the do-statement path raise "too many
arguments" when the argument count exceeds the declared parameter count
(the check fires incrementally, at the comma introducing the first
excess argument) and "too few arguments" when a non-empty argument list
ends short; an exact match passes.  An empty argument list is not
checked against the count at all: the call expression accepts it
silently and the do-statement raises "expected factor". -/
theorem C2_argument_count_checks (np na : Nat) (hnp1 : 1 ≤ np)
    (hnp2 : np ≤ 2147483647) :
    parse_factor_call np 0 = CallOutcome.ok ∧
    parse_do_call np 0 = CallOutcome.missingFactor ∧
    (1 ≤ na →
      parse_factor_call np na =
        (if na = np then CallOutcome.ok
         else if na < np then CallOutcome.tooFew else CallOutcome.tooMany) ∧
      parse_do_call np na =
        (if na = np then CallOutcome.ok
         else if na < np then CallOutcome.tooFew else CallOutcome.tooMany)) := by
  refine ⟨rfl, rfl, ?_⟩
  intro hna
  obtain ⟨m, rfl⟩ : ∃ m, na = m + 1 := ⟨na - 1, by omega⟩
  constructor
  · show factor_call_loop (np : Int) 0 m = _
    rw [factor_call_loop_spec (np : Int) m 0 le_rfl (by exact_mod_cast hnp1)]
    have hc : ((0 : Int) + m + 1 = np) ↔ (m + 1 = np) := by omega
    split_ifs <;> first | rfl | omega
  · show do_call_loop np 0 m = _
    rw [do_call_loop_spec np hnp1 hnp2 m 0 hnp1]
    split_ifs <;> first | rfl | omega

/-- Claim C2 witness: a two-parameter callee accepts two arguments,
rejects three as too many and one as too few; with no arguments, the
call expression passes unchecked and the do-statement reports a missing
factor. -/
theorem C2_argument_count_checks_witness :
    parse_factor_call 2 0 = CallOutcome.ok ∧
    parse_do_call 2 0 = CallOutcome.missingFactor ∧
    (parse_factor_call 2 2 =
        (if 2 = 2 then CallOutcome.ok
         else if 2 < 2 then CallOutcome.tooFew else CallOutcome.tooMany) ∧
      parse_do_call 2 2 =
        (if 2 = 2 then CallOutcome.ok
         else if 2 < 2 then CallOutcome.tooFew else CallOutcome.tooMany)) ∧
    (parse_factor_call 2 3 =
        (if 3 = 2 then CallOutcome.ok
         else if 3 < 2 then CallOutcome.tooFew else CallOutcome.tooMany) ∧
      parse_do_call 2 3 =
        (if 3 = 2 then CallOutcome.ok
         else if 3 < 2 then CallOutcome.tooFew else CallOutcome.tooMany)) ∧
    (parse_factor_call 2 1 =
        (if 1 = 2 then CallOutcome.ok
         else if 1 < 2 then CallOutcome.tooFew else CallOutcome.tooMany) ∧
      parse_do_call 2 1 =
        (if 1 = 2 then CallOutcome.ok
         else if 1 < 2 then CallOutcome.tooFew else CallOutcome.tooMany)) :=
  ⟨(C2_argument_count_checks 2 0 (by decide) (by decide)).1,
   (C2_argument_count_checks 2 0 (by decide) (by decide)).2.1,
   (C2_argument_count_checks 2 2 (by decide) (by decide)).2.2 (by decide),
   (C2_argument_count_checks 2 3 (by decide) (by decide)).2.2 (by decide),
   (C2_argument_count_checks 2 1 (by decide) (by decide)).2.2 (by decide)⟩

/-! ## Claim C7 — callable masking in ordering comparisons -/

/-- Claim C7 counterexample: the claim says a function returning integer
is accepted on either side of an ordering comparison by masking off the
callable bit.  The code masks only the left operand: with a plain
integer on the left and a callable-tagged integer (a function call) on
the right, `check_types` raises the incompatible-types error, while the
mirrored comparison is accepted. -/
theorem C7_right_operand_counterexample :
    parse_expr_ordcheck TYPE_INTEGER (TYPE_INTEGER ||| TYPE_CALLABLE) =
      TypeCheckResult.mismatch (TYPE_INTEGER ||| TYPE_CALLABLE) TYPE_INTEGER ∧
    parse_expr_ordcheck (TYPE_INTEGER ||| TYPE_CALLABLE) TYPE_INTEGER =
      TypeCheckResult.ok TYPE_BOOLEAN := by
  constructor <;> rfl

/-- Claim C7 as amended: an ordering comparison passes the type checks
exactly when the left operand is plain integer or integer with the
callable bit (which the code strips with an xor), and the right operand
is exactly plain integer — the callable mask is applied to the left
operand only. -/
theorem C7_ordering_comparison_types (t1 t2 : Nat) :
    parse_expr_ordcheck t1 t2 = TypeCheckResult.ok TYPE_BOOLEAN ↔
      ((t1 = TYPE_INTEGER ∨ t1 = TYPE_INTEGER ||| TYPE_CALLABLE) ∧
       t2 = TYPE_INTEGER) := by
  have hx : (t1 ^^^ TYPE_CALLABLE = TYPE_INTEGER) ↔
      t1 = TYPE_INTEGER ||| TYPE_CALLABLE := by
    constructor
    · intro h
      have h2 : t1 ^^^ TYPE_CALLABLE ^^^ TYPE_CALLABLE =
          TYPE_INTEGER ^^^ TYPE_CALLABLE := by rw [h]
      rw [Nat.xor_assoc, Nat.xor_self, Nat.xor_zero] at h2
      rw [h2]
      decide
    · intro h
      rw [h]
      decide
  unfold parse_expr_ordcheck
  split_ifs with h1 h2
  · constructor
    · intro h; cases h
    · rintro ⟨ha | ha, hb⟩
      · exact absurd ha h1.1
      · exact absurd (hx.mpr ha) h1.2
  · constructor
    · intro h; cases h
    · rintro ⟨-, hb⟩
      exact absurd hb h2
  · constructor
    · intro _
      push_neg at h1
      refine ⟨?_, by omega⟩
      by_cases ht : t1 = TYPE_INTEGER
      · exact Or.inl ht
      · exact Or.inr (hx.mp (h1 ht))
    · intro _
      rfl

/-! ## Claim C10 — `get_token` at end of file -/

/-- Claim C10: with the input exhausted (the lookahead is EOF) and the
reported column already synchronised with the scanner column — which
holds after any completed token — `get_token` succeeds, produces a
`TOK_EOF` token, changes nothing, and therefore keeps producing
`TOK_EOF` tokens on every further call. -/
theorem C10_get_token_eof_fixpoint (s : ScanState) (h1 : s.ch = none)
    (h2 : s.col = s.colNum) :
    get_token s = .ok ({ type := .TOK_EOF }, s) := by
  have h3 : skipWs s = s := skipWs_eof s h1
  have h4 : ({ s with col := s.colNum } : ScanState) = s := by
    obtain ⟨i, c, l, co, cn⟩ := s
    simp only at h2
    rw [h2]
  unfold get_token
  rw [h3, h4]
  simp only []
  split
  next => rfl
  next c h5 => rw [h1] at h5; cases h5

/-- Claim C10 witness: the scanner primed on an empty input returns the
EOF token and the unchanged state, so a second call returns exactly the
same thing. -/
theorem C10_get_token_eof_fixpoint_witness :
    get_token (init_scanner []) = .ok ({ type := .TOK_EOF }, init_scanner []) ∧
    get_token (init_scanner []) =
      .ok ({ type := .TOK_EOF }, init_scanner []) :=
  ⟨C10_get_token_eof_fixpoint (init_scanner []) rfl rfl,
   C10_get_token_eof_fixpoint (init_scanner []) rfl rfl⟩

/-! ## Unfolding `skip_comment` one step at a time -/

theorem skipCommentRun_eof (a b : Int) (s : ScanState) (h : s.ch = none) :
    skipCommentRun a b s = .error ⟨"comment not closed", a, b⟩ := by
  conv_lhs => unfold skipCommentRun skipComment
  split
  next => rfl
  next c h1 => rw [h] at h1; cases h1

theorem skipCommentRun_close (a b : Int) (s : ScanState)
    (h : s.ch = some braceClose) :
    skipCommentRun a b s = .ok (nextChar s) := by
  conv_lhs => unfold skipCommentRun skipComment
  split
  next h1 => rw [h] at h1; cases h1
  next c h1 =>
    rw [h] at h1
    injection h1 with hc
    subst hc
    rw [dif_pos rfl]
    rfl

theorem skipCommentRun_other (a b : Int) (s : ScanState) (c : Char)
    (h : s.ch = some c) (hcl : c ≠ braceClose) (hop : c ≠ braceOpen) :
    skipCommentRun a b s = skipCommentRun a b (nextChar s) := by
  conv_lhs => unfold skipCommentRun skipComment
  split
  next h1 => rw [h] at h1; cases h1
  next c0 h1 =>
    rw [h] at h1
    injection h1 with hc
    subst hc
    rw [dif_neg hcl, dif_neg hop]
    cases hin : skipComment a b (nextChar s) with
    | error e =>
      simp only [skipCommentRun, hin]
      rfl
    | ok s2p =>
      obtain ⟨s2, hs2⟩ := s2p
      simp only [skipCommentRun, hin]
      rfl

theorem skipCommentRun_open_err (a b : Int) (s : ScanState) (e : ScanErr)
    (h : s.ch = some braceOpen)
    (hin : skipCommentRun (nextChar s).line (nextChar s).col (nextChar s) =
      .error e) :
    skipCommentRun a b s = .error e := by
  unfold skipCommentRun at hin
  conv_lhs => unfold skipCommentRun skipComment
  split
  next h1 => rw [h] at h1; cases h1
  next c0 h1 =>
    rw [h] at h1
    injection h1 with hc
    subst hc
    rw [dif_neg (by decide), dif_pos rfl]
    cases hsc : skipComment (nextChar s).line (nextChar s).col (nextChar s) with
    | error e2 =>
      rw [hsc] at hin
      simp only [Except.map] at hin
      injection hin with he
      subst he
      rfl
    | ok s2p =>
      rw [hsc] at hin
      obtain ⟨s2, hs2⟩ := s2p
      simp [Except.map] at hin

theorem skipCommentRun_open_ok (a b : Int) (s t : ScanState)
    (h : s.ch = some braceOpen)
    (hin : skipCommentRun (nextChar s).line (nextChar s).col (nextChar s) =
      .ok t) :
    skipCommentRun a b s = skipCommentRun a b t := by
  unfold skipCommentRun at hin
  conv_lhs => unfold skipCommentRun skipComment
  split
  next h1 => rw [h] at h1; cases h1
  next c0 h1 =>
    rw [h] at h1
    injection h1 with hc
    subst hc
    rw [dif_neg (by decide), dif_pos rfl]
    cases hsc : skipComment (nextChar s).line (nextChar s).col (nextChar s) with
    | error e2 =>
      rw [hsc] at hin
      simp [Except.map] at hin
    | ok s2p =>
      obtain ⟨s2, hs2⟩ := s2p
      rw [hsc] at hin
      simp only [Except.map] at hin
      injection hin with ht
      subst ht
      simp only []
      cases hsc2 : skipComment a b s2 with
      | error e =>
        simp only [skipCommentRun, hsc2]
        rfl
      | ok s3p =>
        obtain ⟨s3, hs3⟩ := s3p
        simp only [skipCommentRun, hsc2]
        rfl

/-! ## `skip_comment` on whole comment bodies -/

/-- A well-nested comment body is consumed completely: `skip_comment`
returns the state exactly `body.length` characters further on. -/
theorem skipCommentRun_balanced {body : List Char} (hb : Balanced body) :
    ∀ (s : ScanState) (r : List Char) (a b : Int), lookStream s = body ++ r →
      skipCommentRun a b s = .ok (nextChar^[body.length] s) := by
  induction hb with
  | close =>
    intro s r a b hlook
    have hch : s.ch = some braceClose := ch_of_lookStream s braceClose r (by simpa using hlook)
    rw [skipCommentRun_close a b s hch]
    rfl
  | plain c cs hco hcc hb ih =>
    intro s r a b hlook
    have hch : s.ch = some c := ch_of_lookStream s c (cs ++ r) (by simpa using hlook)
    rw [skipCommentRun_other a b s c hch hcc hco]
    rw [ih (nextChar s) r a b (lookStream_nextChar s c (cs ++ r) (by simpa using hlook))]
    rw [List.length_cons, Function.iterate_succ_apply]
  | nest inner rest hbi hbr ihi ihr =>
    intro s r a b hlook
    have hch : s.ch = some braceOpen :=
      ch_of_lookStream s braceOpen (inner ++ rest ++ r) (by simpa using hlook)
    have hlook1 : lookStream (nextChar s) = inner ++ (rest ++ r) := by
      have := lookStream_nextChar s braceOpen (inner ++ rest ++ r) (by simpa using hlook)
      simpa using this
    have hinner := ihi (nextChar s) (rest ++ r) (nextChar s).line (nextChar s).col hlook1
    rw [skipCommentRun_open_ok a b s (nextChar^[inner.length] (nextChar s)) hch hinner]
    have hlook2 : lookStream (nextChar^[inner.length] (nextChar s)) = rest ++ r :=
      lookStream_iterate inner (nextChar s) (rest ++ r) hlook1
    rw [ihr (nextChar^[inner.length] (nextChar s)) r a b hlook2]
    have hlen : (braceOpen :: (inner ++ rest)).length =
        rest.length + (inner.length + 1) := by
      simp [List.length_cons, List.length_append]
      omega
    rw [hlen, Function.iterate_add_apply, Function.iterate_succ_apply]

/-- With no brace at all before end of file, `skip_comment` runs off the
input and reports "comment not closed" at its own start position. -/
theorem skipCommentRun_unclosed_flat (cs : List Char)
    (hfree : ∀ c ∈ cs, c ≠ braceOpen ∧ c ≠ braceClose) :
    ∀ (s : ScanState) (a b : Int), lookStream s = cs →
      skipCommentRun a b s = .error ⟨"comment not closed", a, b⟩ := by
  induction cs with
  | nil =>
    intro s a b hlook
    exact skipCommentRun_eof a b s (ch_none_of_lookStream_nil s hlook)
  | cons c cs ih =>
    intro s a b hlook
    have hch : s.ch = some c := ch_of_lookStream s c cs hlook
    obtain ⟨hco, hcc⟩ := hfree c (by simp)
    rw [skipCommentRun_other a b s c hch hcc hco]
    exact ih (fun d hd => hfree d (by simp [hd])) (nextChar s) a b
      (lookStream_nextChar s c cs hlook)

/-- With a nested comment opened after `aa` brace-free characters and
never closed, the error is reported at the inner invocation's own start:
the position reached after consuming `aa` and the inner brace. -/
theorem skipCommentRun_unclosed_nested (aa : List Char)
    (hfree : ∀ c ∈ aa, c ≠ braceOpen ∧ c ≠ braceClose) (bb : List Char)
    (hfreeb : ∀ c ∈ bb, c ≠ braceOpen ∧ c ≠ braceClose) :
    ∀ (s : ScanState) (a b : Int), lookStream s = aa ++ braceOpen :: bb →
      skipCommentRun a b s =
        .error ⟨"comment not closed", (nextChar^[aa.length + 1] s).line,
          (nextChar^[aa.length + 1] s).col⟩ := by
  induction aa with
  | nil =>
    intro s a b hlook
    have hch : s.ch = some braceOpen := ch_of_lookStream s braceOpen bb (by simpa using hlook)
    have hinner := skipCommentRun_unclosed_flat bb hfreeb (nextChar s)
      (nextChar s).line (nextChar s).col
      (lookStream_nextChar s braceOpen bb (by simpa using hlook))
    rw [skipCommentRun_open_err a b s _ hch hinner]
    rfl
  | cons c aa ih =>
    intro s a b hlook
    have hch : s.ch = some c := ch_of_lookStream s c (aa ++ braceOpen :: bb) (by simpa using hlook)
    obtain ⟨hco, hcc⟩ := hfree c (by simp)
    rw [skipCommentRun_other a b s c hch hcc hco]
    rw [ih (fun d hd => hfree d (by simp [hd])) (nextChar s) a b
      (lookStream_nextChar s c (aa ++ braceOpen :: bb) (by simpa using hlook))]
    simp only [List.length_cons, Function.iterate_succ_apply]

/-! ## `get_token` on a comment opener -/

theorem setCol_col (s : ScanState) (x : Int) :
    ({ s with col := x } : ScanState).col = x := rfl

theorem commentEntry_line (s : ScanState) (h : s.ch = some braceOpen) :
    (commentEntry s).line = s.line := by
  unfold commentEntry
  rw [setCol_line]
  exact (nextChar_pos_of_ne_newline s braceOpen h (by decide)).1

theorem commentEntry_col (s : ScanState) (h : s.ch = some braceOpen) :
    (commentEntry s).col = s.col := by
  unfold commentEntry
  rw [setCol_col]
  rw [(nextChar_pos_of_ne_newline s braceOpen h (by decide)).2.1]
  omega

theorem commentEntry_colNum (s : ScanState) (h : s.ch = some braceOpen) :
    (commentEntry s).colNum = s.colNum + 1 := by
  unfold commentEntry
  rw [setCol_colNum]
  exact (nextChar_pos_of_ne_newline s braceOpen h (by decide)).2.2

theorem lookStream_commentEntry (s : ScanState) :
    lookStream (commentEntry s) = lookStream (nextChar s) := rfl

theorem get_token_brace_ok (s t : ScanState) (h : s.ch = some braceOpen)
    (h2 : skipCommentRun (commentEntry { s with col := s.colNum }).line
        (commentEntry { s with col := s.colNum }).col
        (commentEntry { s with col := s.colNum }) = .ok t) :
    get_token s = get_token t := by
  have hws : skipWs s = s := skipWs_of_not_space s braceOpen h (by decide)
  unfold skipCommentRun at h2
  conv_lhs => unfold get_token
  rw [hws]
  simp only []
  split
  next h1 => rw [setCol_ch] at h1; rw [h] at h1; cases h1
  next c h1 =>
    rw [setCol_ch] at h1
    rw [h] at h1
    injection h1 with hc
    subst hc
    rw [if_neg (by decide), if_neg (by decide), if_neg (by decide), dif_pos rfl]
    cases hsc : skipComment (commentEntry { s with col := s.colNum }).line
        (commentEntry { s with col := s.colNum }).col
        (commentEntry { s with col := s.colNum }) with
    | error e =>
      rw [hsc] at h2
      simp [Except.map] at h2
    | ok s5p =>
      obtain ⟨s5, h5⟩ := s5p
      rw [hsc] at h2
      simp only [Except.map] at h2
      injection h2 with ht
      subst ht
      rfl

theorem get_token_brace_err (s : ScanState) (e : ScanErr)
    (h : s.ch = some braceOpen)
    (h2 : skipCommentRun (commentEntry { s with col := s.colNum }).line
        (commentEntry { s with col := s.colNum }).col
        (commentEntry { s with col := s.colNum }) = .error e) :
    get_token s = .error e := by
  have hws : skipWs s = s := skipWs_of_not_space s braceOpen h (by decide)
  unfold skipCommentRun at h2
  conv_lhs => unfold get_token
  rw [hws]
  simp only []
  split
  next h1 => rw [setCol_ch] at h1; rw [h] at h1; cases h1
  next c h1 =>
    rw [setCol_ch] at h1
    rw [h] at h1
    injection h1 with hc
    subst hc
    rw [if_neg (by decide), if_neg (by decide), if_neg (by decide), dif_pos rfl]
    cases hsc : skipComment (commentEntry { s with col := s.colNum }).line
        (commentEntry { s with col := s.colNum }).col
        (commentEntry { s with col := s.colNum }) with
    | error e2 =>
      rw [hsc] at h2
      simp only [Except.map] at h2
      injection h2 with he
      subst he
      rfl
    | ok s5p =>
      obtain ⟨s5, h5⟩ := s5p
      rw [hsc] at h2
      simp [Except.map] at h2

/-! ## Claim C3 — nested comments -/

theorem get_token_comment_balanced (s : ScanState) (body r : List Char)
    (hlook : lookStream s = braceOpen :: (body ++ r)) (hb : Balanced body) :
    get_token s =
      get_token (nextChar^[body.length] (commentEntry { s with col := s.colNum })) ∧
    lookStream (nextChar^[body.length] (commentEntry { s with col := s.colNum })) = r := by
  have hch : s.ch = some braceOpen := ch_of_lookStream s braceOpen (body ++ r) hlook
  have hlookE : lookStream (commentEntry { s with col := s.colNum }) = body ++ r := by
    rw [lookStream_commentEntry]
    exact lookStream_nextChar { s with col := s.colNum } braceOpen (body ++ r)
      (by rw [lookStream_setCol]; exact hlook)
  have hskip := skipCommentRun_balanced hb (commentEntry { s with col := s.colNum })
    r (commentEntry { s with col := s.colNum }).line
    (commentEntry { s with col := s.colNum }).col hlookE
  exact ⟨get_token_brace_ok s _ hch hskip,
    lookStream_iterate body (commentEntry { s with col := s.colNum }) r hlookE⟩

theorem get_token_comment_unclosed_nested (s : ScanState) (aa bb : List Char)
    (hfa : ∀ c ∈ aa, c ≠ braceOpen ∧ c ≠ braceClose)
    (hnl : ∀ c ∈ aa, c ≠ newlineChar)
    (hfb : ∀ c ∈ bb, c ≠ braceOpen ∧ c ≠ braceClose)
    (hlook : lookStream s = braceOpen :: (aa ++ braceOpen :: bb)) :
    get_token s =
      .error ⟨"comment not closed", s.line, s.colNum + aa.length + 1⟩ := by
  have hch : s.ch = some braceOpen :=
    ch_of_lookStream s braceOpen (aa ++ braceOpen :: bb) hlook
  have hchE : ({ s with col := s.colNum } : ScanState).ch = some braceOpen := by
    rw [setCol_ch]; exact hch
  have hlookE : lookStream (commentEntry { s with col := s.colNum }) =
      aa ++ braceOpen :: bb := by
    rw [lookStream_commentEntry]
    exact lookStream_nextChar { s with col := s.colNum } braceOpen (aa ++ braceOpen :: bb)
      (by rw [lookStream_setCol]; exact hlook)
  have hskip := skipCommentRun_unclosed_nested aa hfa bb hfb
    (commentEntry { s with col := s.colNum })
    (commentEntry { s with col := s.colNum }).line
    (commentEntry { s with col := s.colNum }).col hlookE
  have hpos := iterate_pos_of_no_newline (aa ++ [braceOpen])
    (commentEntry { s with col := s.colNum }) bb (by simpa using hlookE)
    (by
      intro c hc
      rcases List.mem_append.mp hc with hm | hm
      · exact hnl c hm
      · simp at hm
        subst hm
        decide)
  rw [get_token_brace_err s _ hch hskip]
  have hlen : (aa ++ [braceOpen]).length = aa.length + 1 := by simp
  rw [hlen] at hpos
  rw [hpos.1, hpos.2.1]
  rw [commentEntry_line _ hchE, commentEntry_col _ hchE, setCol_line, setCol_col]
  rw [show ((aa.length + 1 : Nat) : Int) = (aa.length : Int) + 1 from by push_cast; ring]
  rw [← add_assoc]

theorem get_token_comment_unclosed_plain (s : ScanState) (aa : List Char)
    (hfa : ∀ c ∈ aa, c ≠ braceOpen ∧ c ≠ braceClose)
    (hlook : lookStream s = braceOpen :: aa) :
    get_token s = .error ⟨"comment not closed", s.line, s.colNum⟩ := by
  have hch : s.ch = some braceOpen := ch_of_lookStream s braceOpen aa hlook
  have hchE : ({ s with col := s.colNum } : ScanState).ch = some braceOpen := by
    rw [setCol_ch]; exact hch
  have hlookE : lookStream (commentEntry { s with col := s.colNum }) = aa := by
    rw [lookStream_commentEntry]
    exact lookStream_nextChar { s with col := s.colNum } braceOpen aa
      (by rw [lookStream_setCol]; exact hlook)
  have hskip := skipCommentRun_unclosed_flat aa hfa
    (commentEntry { s with col := s.colNum })
    (commentEntry { s with col := s.colNum }).line
    (commentEntry { s with col := s.colNum }).col hlookE
  rw [get_token_brace_err s _ hch hskip]
  rw [commentEntry_line _ hchE, commentEntry_col _ hchE, setCol_line, setCol_col]

/-- Claim C3 counterexample: on the input `{a{b` (outermost comment
opened at line 1, column 1) end of file is reached inside the inner
comment, and the fatal error is reported at the inner comment's start
(column 3), not at the outermost comment's start position (column 1) as
the claim states. -/
theorem C3_unclosed_inner_counterexample :
    get_token (init_scanner [braceOpen, 'a', braceOpen, 'b']) ≠
      .error ⟨"comment not closed", 1, 1⟩ ∧
    get_token (init_scanner [braceOpen, 'a', braceOpen, 'b']) =
      .error ⟨"comment not closed", 1, 3⟩ := by
  have h := get_token_comment_unclosed_nested
    (init_scanner [braceOpen, 'a', braceOpen, 'b']) ['a'] ['b']
    (by decide) (by decide) (by decide) rfl
  constructor
  · rw [h]
    intro hcon
    exact absurd (Except.error.inj hcon) (by decide)
  · rw [h]
    rfl

/-- Claim C3 as amended: a well-nested comment is skipped entirely, the
next token being scanned from the characters after the outermost closing
brace; when end of file is reached inside an open comment, "comment not
closed" is reported at the start position of the innermost still-open
comment — for an un-nested unclosed comment that is the outermost
comment's start position, but for an unclosed inner comment it is the
inner opening brace's position, not the outermost one. -/
theorem C3_comment_skipping :
    (∀ (s : ScanState) (body r : List Char),
      lookStream s = braceOpen :: (body ++ r) → Balanced body →
      get_token s =
        get_token (nextChar^[body.length] (commentEntry { s with col := s.colNum })) ∧
      lookStream (nextChar^[body.length] (commentEntry { s with col := s.colNum })) = r) ∧
    (∀ (s : ScanState) (aa bb : List Char),
      (∀ c ∈ aa, c ≠ braceOpen ∧ c ≠ braceClose) →
      (∀ c ∈ aa, c ≠ newlineChar) →
      (∀ c ∈ bb, c ≠ braceOpen ∧ c ≠ braceClose) →
      lookStream s = braceOpen :: (aa ++ braceOpen :: bb) →
      get_token s =
        .error ⟨"comment not closed", s.line, s.colNum + aa.length + 1⟩) ∧
    (∀ (s : ScanState) (aa : List Char),
      (∀ c ∈ aa, c ≠ braceOpen ∧ c ≠ braceClose) →
      lookStream s = braceOpen :: aa →
      get_token s = .error ⟨"comment not closed", s.line, s.colNum⟩) :=
  ⟨fun s body r hlook hb => get_token_comment_balanced s body r hlook hb,
   fun s aa bb hfa hnl hfb hlook =>
     get_token_comment_unclosed_nested s aa bb hfa hnl hfb hlook,
   fun s aa hfa hlook => get_token_comment_unclosed_plain s aa hfa hlook⟩

/-- Claim C3 witness: on `{a}5` the comment is skipped and scanning
resumes at the `5`; on `{a{b` the unclosed inner comment reports column
3; on `{ab` (un-nested) the unclosed comment reports its own start,
column 1. -/
theorem C3_comment_skipping_witness :
    (get_token (init_scanner [braceOpen, 'a', braceClose, '5']) =
      get_token (nextChar^[2] (commentEntry
        { init_scanner [braceOpen, 'a', braceClose, '5'] with
          col := (init_scanner [braceOpen, 'a', braceClose, '5']).colNum })) ∧
     lookStream (nextChar^[2] (commentEntry
        { init_scanner [braceOpen, 'a', braceClose, '5'] with
          col := (init_scanner [braceOpen, 'a', braceClose, '5']).colNum })) = ['5']) ∧
    get_token (init_scanner [braceOpen, 'a', braceOpen, 'b']) =
      .error ⟨"comment not closed", 1, 3⟩ ∧
    get_token (init_scanner [braceOpen, 'a', 'b']) =
      .error ⟨"comment not closed", 1, 1⟩ := by
  refine ⟨?_, ?_, ?_⟩
  · exact C3_comment_skipping.1 (init_scanner [braceOpen, 'a', braceClose, '5'])
      ['a', braceClose] ['5'] rfl
      (Balanced.plain 'a' [braceClose] (by decide) (by decide) Balanced.close)
  · have h := C3_comment_skipping.2.1 (init_scanner [braceOpen, 'a', braceOpen, 'b'])
      ['a'] ['b'] (by decide) (by decide) (by decide) rfl
    rw [h]
    rfl
  · have h := C3_comment_skipping.2.2 (init_scanner [braceOpen, 'a', 'b'])
      ['a', 'b'] (by decide) rfl
    rw [h]
    rfl

/-! ## Claim C4 — unterminated string position -/

theorem setCol_setCol (s : ScanState) (x y : Int) :
    ({ ({ s with col := x } : ScanState) with col := y } : ScanState) =
      { s with col := y } := rfl

theorem string_loop_eof (i : Nat) (buf : List Char) (a b : Int)
    (s : ScanState) (h : s.ch = none) :
    string_loop i buf a b s = .error ⟨"string not closed", a, b⟩ := by
  conv_lhs => unfold string_loop
  split
  next => rfl
  next c h1 => rw [h] at h1; cases h1

theorem string_loop_plain (i : Nat) (buf : List Char) (a b : Int)
    (s : ScanState) (c : Char) (h : s.ch = some c) (h1 : c ≠ quoteChar)
    (h2 : c ≠ tabChar) (h3 : c ≠ backslashChar) :
    string_loop i buf a b s = string_loop (i + 1) (buf ++ [c]) a b (nextChar s) := by
  conv_lhs => unfold string_loop
  split
  next h4 => rw [h] at h4; cases h4
  next c0 h4 =>
    rw [h] at h4
    injection h4 with hc
    subst hc
    rw [if_neg h1, if_neg h2, if_neg (by rintro ⟨-, hb⟩; exact h3 hb)]

theorem get_token_quote_err (s : ScanState) (e : ScanErr)
    (h : s.ch = some quoteChar)
    (h2 : processString (nextChar { s with col := s.colNum }) = .error e) :
    get_token s = .error e := by
  have hws : skipWs s = s := skipWs_of_not_space s quoteChar h (by decide)
  conv_lhs => unfold get_token
  rw [hws]
  simp only []
  split
  next h1 => rw [setCol_ch] at h1; rw [h] at h1; cases h1
  next c h1 =>
    rw [setCol_ch] at h1
    rw [h] at h1
    injection h1 with hc
    subst hc
    rw [if_neg (by decide), if_neg (by decide), if_pos rfl]
    rw [setCol_colNum, setCol_setCol]
    cases hps : processString (nextChar { s with col := s.colNum }) with
    | error e2 =>
      rw [hps] at h2
      injection h2 with he
      subst he
      rfl
    | ok tp =>
      rw [hps] at h2
      cases h2

/-- Claim C4: on the input consisting of an unterminated string whose
opening quote sits at line 1, column 1, the code raises "string not
closed" at line 0, column 1 — the column of the opening quote but one
line ABOVE it (`process_string` subtracts one from the line as well as
the column), while the claim says the reported position equals the
opening quote's position, line included. -/
theorem C4_string_not_closed_position :
    get_token (init_scanner [quoteChar, 'a', 'b']) =
      .error ⟨"string not closed", 0, 1⟩ ∧
    (init_scanner [quoteChar, 'a', 'b']).line = 1 ∧
    (init_scanner [quoteChar, 'a', 'b']).colNum = 1 := by
  refine ⟨?_, rfl, rfl⟩
  apply get_token_quote_err _ _ rfl
  show processString (⟨['b'], some 'a', 1, 2, 2⟩ : ScanState) =
    .error ⟨"string not closed", 0, 1⟩
  unfold processString
  simp only []
  rw [string_loop_plain 0 [] (1 - 1) (2 - 1) ⟨['b'], some 'a', 1, 2, 2⟩ 'a'
    rfl (by decide) (by decide) (by decide)]
  rw [show nextChar (⟨['b'], some 'a', 1, 2, 2⟩ : ScanState) =
    (⟨[], some 'b', 1, 3, 3⟩ : ScanState) from rfl]
  rw [string_loop_plain (0 + 1) ([] ++ ['a']) (1 - 1) (2 - 1) ⟨[], some 'b', 1, 3, 3⟩ 'b'
    rfl (by decide) (by decide) (by decide)]
  rw [show nextChar (⟨[], some 'b', 1, 3, 3⟩ : ScanState) =
    (⟨[], none, 1, 4, 4⟩ : ScanState) from rfl]
  rw [string_loop_eof (0 + 1 + 1) ([] ++ ['a'] ++ ['b']) (1 - 1) (2 - 1)
    ⟨[], none, 1, 4, 4⟩ rfl]
  rfl

/-! ## Claim C5 — numeric literal scanning with overflow check -/

theorem digit_ne_newline (c : Char) (h : isdigitC c = true) : c ≠ newlineChar := by
  intro hcon
  subst hcon
  exact absurd h (by decide)

theorem foldl_digit_ge (l : List Char) :
    ∀ v : Nat, v ≤ l.foldl digit_step v := by
  induction l with
  | nil => intro v; exact le_refl v
  | cons c t ih =>
    intro v
    have h1 : v ≤ digit_step v c := by unfold digit_step; omega
    exact le_trans h1 (ih (digit_step v c))

/-- The overflow guard of `process_number` fires exactly when the next
accumulated value would exceed `INT_MAX`. -/
theorem overflow_guard_iff (v d : Nat) (hd : d ≤ 9) :
    (v > (INT_MAX - d) / 10) ↔ INT_MAX < v * 10 + d := by
  unfold INT_MAX
  omega

theorem number_loop_eof (v : Nat) (s : ScanState) (h : s.ch = none) :
    number_loop v s = .ok (v, s) := by
  conv_lhs => unfold number_loop
  split
  next c h1 => rw [h] at h1; cases h1
  next => rfl

theorem number_loop_end (v : Nat) (s : ScanState) (c : Char)
    (h : s.ch = some c) (hd : isdigitC c = false)
    (ha : (isalphaC c || c = '_') = false) :
    number_loop v s = .ok (v, s) := by
  conv_lhs => unfold number_loop
  split
  next c0 h1 =>
    rw [h] at h1
    injection h1 with hc
    subst hc
    rw [if_neg (by rw [hd]; simp), if_neg (by rw [ha]; simp)]
  next h1 => rw [h] at h1

theorem number_loop_digit (v : Nat) (s : ScanState) (c : Char)
    (h : s.ch = some c) (hd : isdigitC c = true)
    (hno : ¬ v > (INT_MAX - (c.toNat - 48)) / 10) :
    number_loop v s = number_loop (v * 10 + (c.toNat - 48)) (nextChar s) := by
  conv_lhs => unfold number_loop
  split
  next c0 h1 =>
    rw [h] at h1
    injection h1 with hc
    subst hc
    rw [if_pos (by rw [hd]), if_neg hno]
  next h1 => rw [h] at h1; cases h1

theorem number_loop_overflow_stop (v : Nat) (s : ScanState) (c : Char)
    (h : s.ch = some c) (hd : isdigitC c = true)
    (hov : v > (INT_MAX - (c.toNat - 48)) / 10) :
    number_loop v s = .error ⟨"number too large", s.line, s.col⟩ := by
  conv_lhs => unfold number_loop
  split
  next c0 h1 =>
    rw [h] at h1
    injection h1 with hc
    subst hc
    rw [if_pos (by rw [hd]), if_pos hov]
  next h1 => rw [h] at h1; cases h1

theorem number_loop_ok_spec (ds : List Char) :
    ∀ (tail : List Char) (s : ScanState) (v : Nat),
      lookStream s = ds ++ tail →
      (∀ d ∈ ds, isdigitC d = true) →
      (∀ t0, tail.head? = some t0 → isdigitC t0 = false) →
      (∀ t0, tail.head? = some t0 → (isalphaC t0 || t0 = '_') = false) →
      ds.foldl digit_step v ≤ INT_MAX →
      number_loop v s = .ok (ds.foldl digit_step v, nextChar^[ds.length] s) := by
  induction ds with
  | nil =>
    intro tail s v hlook hdig htl1 htl2 hbound
    cases tail with
    | nil => exact number_loop_eof v s (ch_none_of_lookStream_nil s hlook)
    | cons t0 tt =>
      exact number_loop_end v s t0 (ch_of_lookStream s t0 tt hlook)
        (htl1 t0 rfl) (htl2 t0 rfl)
  | cons d ds ih =>
    intro tail s v hlook hdig htl1 htl2 hbound
    have hch : s.ch = some d := ch_of_lookStream s d (ds ++ tail) (by simpa using hlook)
    have hd : isdigitC d = true := hdig d (by simp)
    have hd9 : d.toNat - 48 ≤ 9 := by
      have : (48 ≤ d.toNat && d.toNat ≤ 57) = true := hd
      simp at this
      omega
    have hfe : (d :: ds).foldl digit_step v = ds.foldl digit_step (digit_step v d) := rfl
    have hstep_le : digit_step v d ≤ ds.foldl digit_step (digit_step v d) :=
      foldl_digit_ge ds (digit_step v d)
    have hguard : ¬ v > (INT_MAX - (d.toNat - 48)) / 10 := by
      rw [overflow_guard_iff v (d.toNat - 48) hd9]
      rw [hfe] at hbound
      have h2 : digit_step v d = v * 10 + (d.toNat - 48) := rfl
      omega
    rw [number_loop_digit v s d hch hd hguard]
    have := ih tail (nextChar s) (digit_step v d)
      (lookStream_nextChar s d (ds ++ tail) (by simpa using hlook))
      (fun e he => hdig e (by simp [he])) htl1 htl2 (by rw [← hfe]; exact hbound)
    rw [show v * 10 + (d.toNat - 48) = digit_step v d from rfl]
    rw [this, hfe, List.length_cons, Function.iterate_succ_apply]

theorem number_loop_overflow_spec (ds : List Char) :
    ∀ (tail : List Char) (s : ScanState) (v : Nat),
      lookStream s = ds ++ tail →
      (∀ d ∈ ds, isdigitC d = true) →
      v ≤ INT_MAX →
      INT_MAX < ds.foldl digit_step v →
      ∃ p d q, ds = p ++ d :: q ∧
        p.foldl digit_step v ≤ INT_MAX ∧
        INT_MAX < digit_step (p.foldl digit_step v) d ∧
        number_loop v s =
          .error ⟨"number too large", s.line, s.col + p.length⟩ := by
  induction ds with
  | nil =>
    intro tail s v hlook hdig hv hover
    exact absurd hover (by simp; omega)
  | cons d ds ih =>
    intro tail s v hlook hdig hv hover
    have hch : s.ch = some d := ch_of_lookStream s d (ds ++ tail) (by simpa using hlook)
    have hd : isdigitC d = true := hdig d (by simp)
    have hd9 : d.toNat - 48 ≤ 9 := by
      have : (48 ≤ d.toNat && d.toNat ≤ 57) = true := hd
      simp at this
      omega
    by_cases hg : v > (INT_MAX - (d.toNat - 48)) / 10
    · refine ⟨[], d, ds, rfl, by simpa using hv, ?_, ?_⟩
      · have := (overflow_guard_iff v (d.toNat - 48) hd9).mp hg
        unfold digit_step
        simpa using this
      · rw [number_loop_overflow_stop v s d hch hd hg]
        simp
    · have hpos := nextChar_pos_of_ne_newline s d hch (digit_ne_newline d hd)
      have hfe : (d :: ds).foldl digit_step v = ds.foldl digit_step (digit_step v d) := rfl
      have hv1 : digit_step v d ≤ INT_MAX := by
        have := (overflow_guard_iff v (d.toNat - 48) hd9).not.mp hg
        unfold digit_step
        omega
      obtain ⟨p, e, q, hsplit, hple, hpov, hrun⟩ := ih tail (nextChar s) (digit_step v d)
        (lookStream_nextChar s d (ds ++ tail) (by simpa using hlook))
        (fun x hx => hdig x (by simp [hx])) hv1 (by rw [← hfe]; exact hover)
      refine ⟨d :: p, e, q, by rw [hsplit, List.cons_append],
        by rw [List.foldl_cons]; exact hple, by rw [List.foldl_cons]; exact hpov, ?_⟩
      rw [number_loop_digit v s d hch hd hg]
      rw [show v * 10 + (d.toNat - 48) = digit_step v d from rfl]
      rw [hrun, hpos.1, hpos.2.1]
      rw [show ((d :: p).length : Int) = (p.length : Int) + 1 from by simp]
      rw [show s.col + 1 + (p.length : Int) = s.col + ((p.length : Int) + 1) from by ring]

/-- Claim C5: for a maximal digit run, if its decimal value fits in
`INT_MAX` the produced `TOK_NUM` token's value is exactly that decimal
value (provided the run is not glued to a letter or underscore, which is
a different fatal error); if the value exceeds `INT_MAX`, the fatal
"number too large" error fires at the first offending digit — the first
digit `d` whose accumulation step `value * 10 + d` would exceed
`INT_MAX`, checked before the multiplication, so no wraparound value is
ever computed — and is reported at that digit's column. -/
theorem C5_number_scanning (s : ScanState) (c : Char) (ds tail : List Char)
    (hlook : lookStream s = (c :: ds) ++ tail)
    (hdig : ∀ d ∈ c :: ds, isdigitC d = true)
    (htl1 : ∀ t0, tail.head? = some t0 → isdigitC t0 = false) :
    (digit_run_val (c :: ds) ≤ INT_MAX →
      (∀ t0, tail.head? = some t0 → (isalphaC t0 || t0 = '_') = false) →
      processNumber s =
        .ok ({ type := .TOK_NUM, value := (digit_run_val (c :: ds) : Int) },
          nextChar^[(c :: ds).length] s)) ∧
    (INT_MAX < digit_run_val (c :: ds) →
      ∃ p d q, c :: ds = p ++ d :: q ∧ 0 < p.length ∧
        digit_run_val p ≤ INT_MAX ∧
        INT_MAX < digit_step (digit_run_val p) d ∧
        processNumber s =
          .error ⟨"number too large", s.line, s.col + p.length⟩) := by
  have hch : s.ch = some c := ch_of_lookStream s c (ds ++ tail) (by simpa using hlook)
  have hc : isdigitC c = true := hdig c (by simp)
  have hc9 : c.toNat - 48 ≤ 9 := by
    have : (48 ≤ c.toNat && c.toNat ≤ 57) = true := hc
    simp at this
    omega
  have hval : digit_run_val (c :: ds) = ds.foldl digit_step (c.toNat - 48) := by
    unfold digit_run_val
    rw [List.foldl_cons]
    unfold digit_step
    norm_num
  have hlook1 : lookStream (nextChar s) = ds ++ tail :=
    lookStream_nextChar s c (ds ++ tail) (by simpa using hlook)
  have hpos := nextChar_pos_of_ne_newline s c hch (digit_ne_newline c hc)
  have hunfold : processNumber s =
      match number_loop (c.toNat - 48) (nextChar s) with
      | .ok (v, s1) => .ok ({ type := .TOK_NUM, value := (v : Int) }, s1)
      | .error e => .error e := by
    unfold processNumber
    rw [hch]
  constructor
  · intro hbound htl2
    rw [hunfold]
    rw [number_loop_ok_spec ds tail (nextChar s) (c.toNat - 48) hlook1
      (fun x hx => hdig x (by simp [hx])) htl1 htl2 (by rw [← hval]; exact hbound)]
    rw [← hval, List.length_cons, Function.iterate_succ_apply]
  · intro hover
    obtain ⟨p, e, q, hsplit, hple, hpov, hrun⟩ :=
      number_loop_overflow_spec ds tail (nextChar s) (c.toNat - 48) hlook1
        (fun x hx => hdig x (by simp [hx])) (by unfold INT_MAX; omega)
        (by rw [← hval]; exact hover)
    have hvalp : (c :: p).foldl digit_step 0 = p.foldl digit_step (c.toNat - 48) := by
      rw [List.foldl_cons]
      unfold digit_step
      norm_num
    refine ⟨c :: p, e, q, by rw [hsplit, List.cons_append], by simp, ?_, ?_, ?_⟩
    · unfold digit_run_val
      rw [hvalp]
      exact hple
    · unfold digit_run_val
      rw [hvalp]
      exact hpov
    · rw [hunfold, hrun, hpos.1, hpos.2.1]
      rw [show ((c :: p).length : Int) = (p.length : Int) + 1 from by simp]
      rw [show s.col + 1 + (p.length : Int) = s.col + ((p.length : Int) + 1) from by ring]

/-- Claim C5 witness: the digit run `42` scans to a `TOK_NUM` of value
42, consuming both digits. -/
theorem C5_number_scanning_witness :
    processNumber (init_scanner ['4', '2']) =
      .ok ({ type := TokenType.TOK_NUM, value := (digit_run_val ['4', '2'] : Int) },
        nextChar^[(['4', '2'] : List Char).length] (init_scanner ['4', '2'])) :=
  (C5_number_scanning (init_scanner ['4', '2']) '4' ['2'] [] rfl (by decide)
    (by intro t0 ht; cases ht)).1 (by decide) (by intro t0 ht; cases ht)

end Ampl
